import Mathlib

/-! mpq: the MPD protocol client of `mpd.go`

A shallow embedding of `src/mpd.go` and theorems about it.

Go strings are modelled as lists of characters (`Str`).  Every separator and
prefix the program looks for is ASCII, so the byte offsets of the source
(`line[7:]`, `len(line) > 7`) coincide with character offsets here.

A Go function returning `(value, error)` is modelled as a pair whose second
component is `Option Err` (`none` is the `nil` error): the source returns a
value next to a non-nil error on several paths, and the model keeps it.
-/

namespace Mpq

/-- A Go string. -/
abbrev Str := List Char

/-- A Go `error` value.  `text` is an error built by `fmt.Errorf` from a
format without arguments or with string arguments already substituted;
`num` is a `*strconv.NumError` (function name, offending input, and whether
the cause is `ErrRange` rather than `ErrSyntax`); `wrap pre cause` is
`fmt.Errorf(pre + "%s", cause.Error())`; `transport` is an error of the
`net` or `io` packages with the given text. -/
inductive Err where
  | text (msg : Str)
  | num (fn : Str) (input : Str) (range : Bool)
  | wrap (pre : Str) (cause : Err)
  | transport (msg : Str)
  deriving DecidableEq, Repr

/-- The text `err.Error()` of an error.  `quote` is `strconv.Quote`, which
`*strconv.NumError` uses to print the offending input. -/
def Err.Error (quote : Str → Str) : Err → Str
  | .text msg => msg
  | .num fn input range =>
      "strconv.".toList ++ fn ++ ": parsing ".toList ++ quote input ++ ": ".toList ++
        (if range then "value out of range".toList else "invalid syntax".toList)
  | .wrap pre cause => pre ++ cause.Error quote
  | .transport msg => msg

/-! ## The Go library functions the program calls -/

namespace strings

/-- The Go function `strings.HasPrefix(s, p)`. -/
def HasPrefix : Str → Str → Bool
  | _, [] => true
  | [], _ :: _ => false
  | c :: s, p :: ps => decide (c = p) && HasPrefix s ps

/-- The Go function `strings.Contains(s, sub)`: some suffix of `s` starts with `sub`. -/
def Contains : Str → Str → Bool
  | [], sub => HasPrefix [] sub
  | c :: s, sub => HasPrefix (c :: s) sub || Contains s sub

/-- The first piece of `s` before the separator character `d`, and the
remaining pieces. -/
def splitAux (d : Char) : Str → Str × List Str
  | [] => ([], [])
  | c :: cs =>
      if c = d then ([], (splitAux d cs).1 :: (splitAux d cs).2)
      else (c :: (splitAux d cs).1, (splitAux d cs).2)

/-- The Go function `strings.Split(s, sep)` for a one-byte separator `sep` (the program only
splits on `"\n"`): the pieces of `s` between separators; always at least one
piece. -/
def Split (s : Str) (d : Char) : List Str :=
  (splitAux d s).1 :: (splitAux d s).2

/-- The first occurrence of the non-empty separator `sep` in a string: the
text before it and the text after it, or `none` when `sep` does not occur. -/
def cut (sep : Str) : Str → Option (Str × Str)
  | [] => none
  | c :: cs =>
      if HasPrefix (c :: cs) sep then some ([], (c :: cs).drop sep.length)
      else match cut sep cs with
        | none => none
        | some (a, b) => some (c :: a, b)

/-- The Go function `strings.SplitN(s, sep, 2)` for a non-empty `sep`: `[s]` when `sep` does
not occur in `s`, else the text before and the text after its first
occurrence. -/
def SplitN2 (s sep : Str) : List Str :=
  match cut sep s with
  | none => [s]
  | some (a, b) => [a, b]

end strings

namespace strconv

/-- The value of a decimal digit, `none` for any other character. -/
def digit (c : Char) : Option Nat :=
  if '0' ≤ c ∧ c ≤ '9' then some (c.toNat - '0'.toNat) else none

/-- The digit loop of `strconv.ParseUint(s, 10, 64)`: `n` is the value read
so far; the result is the value and, on failure, whether the failure is a
range error (`true`) or a syntax error (`false`). -/
def parseUintLoop : Nat → Str → Nat × Option Bool
  | n, [] => (n, none)
  | n, c :: cs =>
      match digit c with
      | none => (0, some false)
      | some d =>
          if n ≥ (2 ^ 64 - 1) / 10 + 1 then (2 ^ 64 - 1, some true)
          else if n * 10 + d > 2 ^ 64 - 1 then (2 ^ 64 - 1, some true)
          else parseUintLoop (n * 10 + d) cs

/-- The Go function `strconv.ParseUint(s, 10, 64)`. -/
def ParseUint (s : Str) : Nat × Option Bool :=
  if s = [] then (0, some false) else parseUintLoop 0 s

/-- The Go function `strconv.Atoi(s)` on a platform whose `int` has 64 bits, which the
library documents as `ParseInt(s, 10, 0)` converted to `int`: an optional
sign, then one or more decimal digits, with a range error when the value
does not fit.  The value returned next to an error is `0` for a syntax error
and the nearest representable bound for a range error. -/
def Atoi (s : Str) : Int × Option Err :=
  if s = [] then (0, some (Err.num "Atoi".toList s false))
  else
    let neg : Bool := s.head? = some '-'
    let body : Str := if s.head? = some '+' ∨ s.head? = some '-' then s.drop 1 else s
    match ParseUint body with
    | (_, some false) => (0, some (Err.num "Atoi".toList s false))
    | (un, _) =>
        if !neg && un ≥ 2 ^ 63 then (2 ^ 63 - 1, some (Err.num "Atoi".toList s true))
        else if neg && un > 2 ^ 63 then (-(2 ^ 63), some (Err.num "Atoi".toList s true))
        else (if neg then -(un : Int) else (un : Int), none)

end strconv

namespace bufio

/-- One call of `(*bufio.Reader).ReadString(delim)` on a stream whose
remaining bytes are the argument: the data up to and including the first
`delim` together with `some` of the bytes left in the stream, or, when the
stream ends before a `delim`, the data read and `none` (the call then
returns a non-nil error). -/
def ReadString (delim : Char) : Str → Str × Option Str
  | [] => ([], none)
  | c :: cs =>
      if c = delim then ([c], some cs)
      else ((ReadString delim cs).1 |>.cons c, (ReadString delim cs).2)

end bufio

/-! ## Types of the program declared outside `mpd.go` -/

/-- The type `mpdState`, with `playMPDState` the zero value (`iota`). -/
inductive mpdState where
  | playMPDState
  | stopMPDState
  | pauseMPDState
  deriving DecidableEq, Repr

/-- Modelled from the spec: the `song` record (the Track of the spec), whose
declaration is not in `mpd.go`.  `F` is the Go type `float32`. -/
structure song (F : Type) where
  uri : Str
  songID : Int
  duration : F
  title : Str
  artist : Str
  album : Str
  track : Option Int
  deriving DecidableEq, Repr

/-- Modelled from the spec: the `state` record (the Snapshot of the spec), whose
declaration is not in `mpd.go`. -/
structure state (F : Type) where
  mpdState : mpdState
  elapsed : Option F
  songID : Option Int
  queue : List (song F)
  highlighted : Int
  deriving DecidableEq, Repr

/-- The Go type `float32` and the one operation on it the program uses:
`parse s` is `strconv.ParseFloat(s, 32)` converted to `float32`, with the
error `ParseFloat` returned; `zero` is the zero value. -/
structure Float32Lib (F : Type) where
  zero : F
  parse : Str → F × Option Err

section
variable {F : Type}

/-- The zero value `song{}`. -/
def song.zero (fl : Float32Lib F) : song F :=
  { uri := [], songID := 0, duration := fl.zero, title := [], artist := [], album := [],
    track := none }

/-- The zero value of `state`. -/
def state.zero : state F :=
  { mpdState := mpdState.playMPDState, elapsed := none, songID := none, queue := [],
    highlighted := 0 }

/-! ## Response parsers -/

/-- The `for ... range` loop of `getMPDState` over the lines of the status. -/
def getMPDStateLoop : List Str → mpdState × Option Err
  | [] => (mpdState.playMPDState, some (Err.text "mpdState not found".toList))
  | line :: rest =>
      if strings.HasPrefix line "state: ".toList && decide (line.length > 7) then
        if line.drop 7 = "play".toList then (mpdState.playMPDState, none)
        else if line.drop 7 = "stop".toList then (mpdState.stopMPDState, none)
        else if line.drop 7 = "pause".toList then (mpdState.pauseMPDState, none)
        else getMPDStateLoop rest
      else getMPDStateLoop rest

/-- The function `getMPDState(status)`. -/
def getMPDState (status : Str) : mpdState × Option Err :=
  getMPDStateLoop (strings.Split status '\n')

/-- The loop of `getElapsed`: the first line with the prefix and a non-empty
value decides. -/
def getElapsedLoop (fl : Float32Lib F) : List Str → Option F × Option Err
  | [] => (none, none)
  | line :: rest =>
      if strings.HasPrefix line "elapsed: ".toList && decide (line.length > 9) then
        (some (fl.parse (line.drop 9)).1, (fl.parse (line.drop 9)).2)
      else getElapsedLoop fl rest

/-- The function `getElapsed(status)`. -/
def getElapsed (fl : Float32Lib F) (status : Str) : Option F × Option Err :=
  getElapsedLoop fl (strings.Split status '\n')

/-- The loop of `getSongID`. -/
def getSongIDLoop : List Str → Option Int × Option Err
  | [] => (none, none)
  | line :: rest =>
      if strings.HasPrefix line "songid: ".toList && decide (line.length > 8) then
        (some (strconv.Atoi (line.drop 8)).1, (strconv.Atoi (line.drop 8)).2)
      else getSongIDLoop rest

/-- The function `getSongID(status)`. -/
def getSongID (status : Str) : Option Int × Option Err :=
  getSongIDLoop (strings.Split status '\n')

end

/-! ## Transport and command execution -/

/-- The behaviour of the server side of one TCP connection, as the client
observes it.  `dialErr` is the error of `net.ResolveTCPAddr` or
`net.DialTCP`, if any.  `greeting` is what the server sends when the
connection is accepted; it is read by the reader of
`initiateMPDConnection`.  `reply` is what the server sends once it has
received the command; it is read by the reader of `executeMPDCommand`.
`readErr` is the error of a read when the stream has ended (`io.EOF`). -/
structure Session where
  dialErr : Option Err
  greeting : Str
  reply : Str
  readErr : Err
  deriving DecidableEq, Repr

/-- The client side of a connection: the bytes written to it and whether
`Close` has been called. -/
structure Conn where
  written : Str
  closed : Bool
  deriving DecidableEq, Repr

/-- The function `initiateMPDConnection()`: the connection (`none` is the `nil` pointer)
and the error. -/
def initiateMPDConnection (sess : Session) : Option Conn × Option Err :=
  match sess.dialErr with
  | some e => (none, some e)
  | none =>
      match bufio.ReadString '\n' sess.greeting with
      | (_, none) => (some { written := [], closed := false }, some sess.readErr)
      | (line, some _) =>
          if !strings.HasPrefix line "OK MPD ".toList then
            (some { written := [], closed := false }, some (Err.text "no mpd server found".toList))
          else (some { written := [], closed := false }, none)

/-- The read loop of `executeMPDCommand`: `stream` is what is left to read,
`respBuilder` the lines accumulated.  Every iteration consumes at least one
byte of the stream, so `fuel` larger than the length of the stream is never
used up. -/
def readLoop (readErr : Err) : Nat → Str → Str → Str × Option Err
  | 0, _, _ => ([], some readErr)
  | fuel + 1, stream, respBuilder =>
      match bufio.ReadString '\n' stream with
      | (_, none) => ([], some readErr)
      | (line, some rest) =>
          if line = "OK\n".toList then (respBuilder, none)
          else if strings.HasPrefix line "ACK ".toList then
            (respBuilder, some (Err.text ("received mpd error ".toList ++ line)))
          else readLoop readErr fuel rest (respBuilder ++ line)

/-- What a call of `executeMPDCommand` leaves behind: the two results and
the final state of the connection it opened (`none` when none was opened). -/
structure ExecResult where
  resp : Str
  err : Option Err
  conn : Option Conn
  deriving DecidableEq, Repr

/-- The function `executeMPDCommand(command)` against the server behaviour `sess`. -/
def executeMPDCommand (sess : Session) (command : Str) : ExecResult :=
  match initiateMPDConnection sess with
  | (none, err) => { resp := [], err := err, conn := none }
  | (some conn, some e) => { resp := [], err := some e, conn := some { conn with closed := true } }
  | (some conn, none) =>
      let r := readLoop sess.readErr (sess.reply.length + 1) sess.reply []
      { resp := r.1, err := r.2,
        conn := some { written := conn.written ++ command ++ "\n".toList, closed := true } }

section
variable {F : Type}

/-! ## Queue parse -/

/-- The body of the `for` loop of `fillQueue` for one line: the accumulator
`s` and the queue after the line, and the error when the function returns
from inside the loop. -/
def fillQueueLine (fl : Float32Lib F) (line : Str) (s : song F) (queue : List (song F)) :
    song F × List (song F) × Option Err :=
  let split := strings.SplitN2 line ": ".toList
  let key := split.headD []
  let val := split.getD 1 []
  if key = "file".toList then
    let s1 := if s.uri.length > 0 then song.zero fl else s
    let q1 := if s.uri.length > 0 then queue ++ [s] else queue
    if split.length < 2 then (s1, q1, some (Err.text "encountered epmty URI".toList))
    else ({ s1 with uri := val }, q1, none)
  else if key = "Id".toList then
    if split.length > 1 then
      match strconv.Atoi val with
      | (i, some e) =>
          ({ s with songID := i }, queue, some (Err.wrap "could not parse songid: ".toList e))
      | (i, none) => ({ s with songID := i }, queue, none)
    else (s, queue, none)
  else if key = "duration".toList then
    if split.length > 1 then
      match fl.parse val with
      | (_, some e) => (s, queue, some (Err.wrap "could not parse duration: ".toList e))
      | (f, none) => ({ s with duration := f }, queue, none)
    else (s, queue, none)
  else if key = "Title".toList then
    if split.length > 1 then ({ s with title := val }, queue, none) else (s, queue, none)
  else if key = "Artist".toList then
    if split.length > 1 then ({ s with artist := val }, queue, none) else (s, queue, none)
  else if key = "Album".toList then
    if split.length > 1 then ({ s with album := val }, queue, none) else (s, queue, none)
  else if key = "Track".toList then
    if split.length > 1 then
      match strconv.Atoi val with
      | (_, some e) => (s, queue, some (Err.wrap "could not parse track: ".toList e))
      | (i, none) => ({ s with track := some i }, queue, none)
    else (s, queue, none)
  else (s, queue, none)

/-- The `for` loop of `fillQueue` over the lines of the listing. -/
def fillQueueLoop (fl : Float32Lib F) : List Str → song F → List (song F) →
    song F × List (song F) × Option Err
  | [], s, queue => (s, queue, none)
  | line :: rest, s, queue =>
      match fillQueueLine fl line s queue with
      | (s1, q1, some e) => (s1, q1, some e)
      | (s1, q1, none) => fillQueueLoop fl rest s1 q1

/-- The part of `fillQueue` after the command: the line scan of the payload
`info`, appending to `st.queue`. -/
def fillQueueScan (fl : Float32Lib F) (info : Str) (st : state F) : state F × Option Err :=
  match fillQueueLoop fl (strings.Split info '\n') (song.zero fl) st.queue with
  | (_, q, some e) => ({ st with queue := q }, some e)
  | (s, q, none) => ({ st with queue := if s.uri.length > 0 then q ++ [s] else q }, none)

/-- The function `fillQueue(state)`: the state after the call and the error. -/
def fillQueue (fl : Float32Lib F) (sess : Session) (st : state F) : state F × Option Err :=
  match (executeMPDCommand sess "playlistinfo".toList).err with
  | some e => (st, some e)
  | none => fillQueueScan fl (executeMPDCommand sess "playlistinfo".toList).resp st

/-! ## Snapshot build -/

/-- The function `getState()`: `statusSess` and `listSess` are the behaviour of the server on
the connections of the `status` and the `playlistinfo` command.  The named
result `state` starts at its zero value and is returned as it is when a step
fails. -/
def getState (fl : Float32Lib F) (statusSess listSess : Session) : state F × Option Err :=
  let st0 : state F := state.zero
  match (executeMPDCommand statusSess "status".toList).err with
  | some e => (st0, some e)
  | none =>
      let status := (executeMPDCommand statusSess "status".toList).resp
      let st1 := { st0 with mpdState := (getMPDState status).1 }
      match (getMPDState status).2 with
      | some e => (st1, some e)
      | none =>
          let st2 := { st1 with elapsed := (getElapsed fl status).1 }
          match (getElapsed fl status).2 with
          | some e => (st2, some e)
          | none =>
              let st3 := { st2 with songID := (getSongID status).1 }
              match (getSongID status).2 with
              | some e => (st3, some e)
              | none => fillQueue fl listSess st3

end

/-! ## Event watcher -/

/-- Modelled from the spec: the `event` type and its value
`updateStateEvent` (the ChangeNotification of the spec), declared outside
`mpd.go`. -/
inductive event where
  | updateStateEvent
  deriving DecidableEq, Repr

/-- What `handleMpdEvents` does that its environment observes: a call of
`executeMPDCommand("idle")`, or a send on the `events` channel. -/
inductive Action where
  | idle
  | send (e : event)
  deriving DecidableEq, Repr

/-- The inner `for` loop of `handleMpdEvents` over the lines of one
response, with its `break`. -/
def scanChanges : List Str → List Action
  | [] => []
  | line :: rest =>
      if strings.Contains line "playlist".toList || strings.Contains line "player".toList then
        [Action.send event.updateStateEvent]
      else scanChanges rest

/-- The function `handleMpdEvents(events)`: the argument lists the behaviour of the server on
the successive connections the loop opens; the result is the trace of
actions and the sessions left unused when the function returns.  The loop
of the source never ends while the command succeeds; the model stops when
the list of sessions is used up. -/
def handleMpdEvents : List Session → List Action × List Session
  | [] => ([], [])
  | sess :: rest =>
      match (executeMPDCommand sess "idle".toList).err with
      | some _ => ([Action.idle], rest)
      | none =>
          let r := handleMpdEvents rest
          (Action.idle :: scanChanges (strings.Split (executeMPDCommand sess "idle".toList).resp '\n')
            ++ r.1, r.2)


/-! ## Specification-side notions -/

/-- The three status lines that carry a recognised playback state. -/
def isStateLine (l : Str) : Bool :=
  decide (l = "state: play".toList) || decide (l = "state: stop".toList) ||
    decide (l = "state: pause".toList)

/-- The playback state a recognised status line stands for. -/
def stateOfLine (l : Str) : mpdState :=
  if l = "state: play".toList then mpdState.playMPDState
  else if l = "state: stop".toList then mpdState.stopMPDState
  else mpdState.pauseMPDState

/-- A decimal digit. -/
def isDigit (c : Char) : Bool := decide ('0' ≤ c ∧ c ≤ '9')

/-- The number a string of decimal digits denotes, read from the left. -/
def digitsValue (ds : Str) : Nat :=
  ds.foldl (fun n c => n * 10 + (c.toNat - '0'.toNat)) 0

/-- The integer a string denotes in decimal: an optional sign followed by
one or more decimal digits; `none` for any other string. -/
def decimalValue (t : Str) : Option Int :=
  match t with
  | '-' :: ds => if ds ≠ [] ∧ ds.all isDigit then some (-(digitsValue ds : Int)) else none
  | '+' :: ds => if ds ≠ [] ∧ ds.all isDigit then some (digitsValue ds : Int) else none
  | ds => if ds ≠ [] ∧ ds.all isDigit then some (digitsValue ds : Int) else none

/-- A valid decimal integer of the 64-bit `int` of Go, and its value: `some n`
when the string denotes `n` in decimal and `-2^63 ≤ n < 2^63`. -/
def validInt (t : Str) : Option Int :=
  match decimalValue t with
  | some n => if -(2 ^ 63 : Int) ≤ n ∧ n < 2 ^ 63 then some n else none
  | none => none

/-- A `float32` library with a single value, on which every text parses: it
serves to run the model on inputs that carry no float field. -/
def unitFloat : Float32Lib Unit :=
  { zero := (), parse := fun _ => ((), none) }

/-- A response of the `idle` command that reports a change of the playlist
or of the player: some line contains `playlist` or `player`. -/
def relevant (resp : Str) : Bool :=
  (strings.Split resp '\n').any
    (fun l => strings.Contains l "playlist".toList || strings.Contains l "player".toList)

/-- The first non-nil error of a sequence of steps. -/
def firstErr : List (Option Err) → Option Err
  | [] => none
  | some e :: _ => some e
  | none :: rest => firstErr rest

/-- A session in which the connection is established, the server greets with
`OK MPD 0.23.5`, sends `reply` once it has the command and then closes the
stream. -/
def sessionReplying (reply : Str) : Session :=
  { dialErr := none, greeting := "OK MPD 0.23.5\n".toList, reply := reply,
    readErr := Err.transport "EOF".toList }

/-- The keys of the lines that may follow the `file` line of a track block. -/
inductive Tag where
  | Id
  | Title
  | Artist
  | Album
  | Track
  deriving DecidableEq, Repr

/-- The key as the server writes it. -/
def Tag.key : Tag → Str
  | .Id => "Id".toList
  | .Title => "Title".toList
  | .Artist => "Artist".toList
  | .Album => "Album".toList
  | .Track => "Track".toList

/-- A track block of a listing: the value of its `file` line and the tagged
lines that follow it, in order. -/
structure Block where
  uri : Str
  lines : List (Tag × Str)
  deriving DecidableEq, Repr

/-- The lines of a block, without their newlines. -/
def Block.bodies (b : Block) : List Str :=
  ("file: ".toList ++ b.uri) :: b.lines.map (fun kv => kv.1.key ++ ": ".toList ++ kv.2)

/-- The listing made of the given blocks: every line followed by a newline. -/
def renderListing (bs : List Block) : Str :=
  ((bs.flatMap Block.bodies).map (· ++ "\n".toList)).flatten

/-- The value of the last line of the block with the given key. -/
def Block.last (b : Block) (k : Tag) : Option Str :=
  ((b.lines.filter (fun kv => decide (kv.1 = k))).getLast?).map (fun kv => kv.2)

/-- The track a block describes: every field is the value of the last line
with its key, and is unset when the block has no such line. -/
def Block.track {F : Type} (fl : Float32Lib F) (b : Block) : song F :=
  { uri := b.uri,
    songID := ((b.last Tag.Id).bind validInt).getD 0,
    duration := fl.zero,
    title := (b.last Tag.Title).getD [],
    artist := (b.last Tag.Artist).getD [],
    album := (b.last Tag.Album).getD [],
    track := (b.last Tag.Track).bind validInt }

/-- A well-formed block: a non-empty uri, no newline inside a value, and
valid decimal integers on the `Id` and `Track` lines. -/
def Block.wellFormed (b : Block) : Prop :=
  b.uri ≠ [] ∧ '\n' ∉ b.uri ∧
    ∀ kv ∈ b.lines, '\n' ∉ kv.2 ∧
      ((kv.1 = Tag.Id ∨ kv.1 = Tag.Track) → (validInt kv.2).isSome = true)

instance (b : Block) : Decidable b.wellFormed := by
  unfold Block.wellFormed
  infer_instance

/-! ## Command façade -/

namespace fmt

/-- The text the verb `%d` of `fmt.Sprintf` prints for an integer: a minus
sign for a negative number, then the decimal digits. -/
def decimal (n : Int) : Str :=
  if n < 0 then '-' :: Nat.toDigits 10 n.natAbs else Nat.toDigits 10 n.toNat

end fmt

/-- The result of an arithmetic operation on the 64-bit `int` of Go: the
mathematical result wrapped into `-2^63 ≤ x < 2^63`. -/
def wrap64 (x : Int) : Int :=
  (x + 2 ^ 63) % 2 ^ 64 - 2 ^ 63

/-- The Go expression `xs[i]` for an `int` index: `none` stands for the
run-time panic on an index out of range. -/
def index {α : Type} (xs : List α) (i : Int) : Option α :=
  if 0 ≤ i then xs[i.toNat]? else none

/-- One call of `executeMPDCommand`: the command handed to it and what the
call left behind. -/
structure Call where
  command : Str
  result : ExecResult
  deriving DecidableEq, Repr

section
variable {F : Type}

/-- The values a `state` of the program can hold: `highlighted` is a 64-bit
`int`, and the length of the queue fits in one. -/
def state.representable (st : state F) : Prop :=
  -(2 ^ 63 : Int) ≤ st.highlighted ∧ st.highlighted < 2 ^ 63 ∧
    (st.queue.length : Int) < 2 ^ 63

instance (st : state F) : Decidable st.representable := by
  unfold state.representable
  infer_instance

/-- The function `playHighlighted(state)`: the error returned and the call
of the executor it made, if any; `none` stands for a panic.  `sess` is the
behaviour of the server on the connection the call would open. -/
def playHighlighted (sess : Session) (st : state F) : Option (Option Err × Option Call) :=
  if st.queue.length = 0 then some (none, none)
  else
    match index st.queue st.highlighted with
    | none => none
    | some song =>
        some ((executeMPDCommand sess ("playid ".toList ++ fmt.decimal song.songID)).err,
          some { command := "playid ".toList ++ fmt.decimal song.songID,
                 result := executeMPDCommand sess ("playid ".toList ++ fmt.decimal song.songID) })

/-- The function `togglePause(state)`. -/
def togglePause (sess : Session) (st : state F) : Option Err × Option Call :=
  match st.mpdState with
  | mpdState.playMPDState =>
      ((executeMPDCommand sess "pause 1".toList).err,
        some { command := "pause 1".toList, result := executeMPDCommand sess "pause 1".toList })
  | mpdState.pauseMPDState =>
      ((executeMPDCommand sess "pause 0".toList).err,
        some { command := "pause 0".toList, result := executeMPDCommand sess "pause 0".toList })
  | mpdState.stopMPDState => (none, none)

/-- The function `deleteHighlighted(state)`; `none` stands for a panic. -/
def deleteHighlighted (sess : Session) (st : state F) : Option (Option Err × Option Call) :=
  if st.queue.length = 0 then some (none, none)
  else
    match index st.queue st.highlighted with
    | none => none
    | some song =>
        some ((executeMPDCommand sess ("deleteid ".toList ++ fmt.decimal song.songID)).err,
          some { command := "deleteid ".toList ++ fmt.decimal song.songID,
                 result :=
                   executeMPDCommand sess ("deleteid ".toList ++ fmt.decimal song.songID) })

/-- The function `moveHighlightedUpwards(state)`: the state after the call,
the error returned, and the call of the executor it made, if any. -/
def moveHighlightedUpwards (sess : Session) (st : state F) :
    state F × Option Err × Option Call :=
  if st.highlighted = 0 then (st, none, none)
  else
    let cmd := "move ".toList ++ fmt.decimal st.highlighted ++ " ".toList ++
      fmt.decimal (wrap64 (st.highlighted - 1)) ++ "\n".toList
    ({ st with highlighted := wrap64 (st.highlighted - 1) },
      (executeMPDCommand sess cmd).err,
      some { command := cmd, result := executeMPDCommand sess cmd })

/-- The function `moveHighlightedDownwards(state)`. -/
def moveHighlightedDownwards (sess : Session) (st : state F) :
    state F × Option Err × Option Call :=
  if st.highlighted ≥ (st.queue.length : Int) - 1 then (st, none, none)
  else
    let cmd := "move ".toList ++ fmt.decimal st.highlighted ++ " ".toList ++
      fmt.decimal (wrap64 (st.highlighted + 1)) ++ "\n".toList
    ({ st with highlighted := wrap64 (st.highlighted + 1) },
      (executeMPDCommand sess cmd).err,
      some { command := cmd, result := executeMPDCommand sess cmd })

end

/-- The function `seekBackwards(seconds)`. -/
def seekBackwards (sess : Session) (seconds : Int) : Option Err × Option Call :=
  ((executeMPDCommand sess ("seekcur -".toList ++ fmt.decimal seconds)).err,
    some { command := "seekcur -".toList ++ fmt.decimal seconds,
           result := executeMPDCommand sess ("seekcur -".toList ++ fmt.decimal seconds) })

/-- The function `seekForwards(seconds)`; `quote` is `strconv.Quote`, which
the text of a `*strconv.NumError` depends on. -/
def seekForwards (quote : Str → Str) (sess : Session) (seconds : Int) :
    Option Err × Option Call :=
  match (executeMPDCommand sess ("seekcur +".toList ++ fmt.decimal seconds)).err with
  | some e =>
      if strings.Contains (e.Error quote) "Decoder failed to seek".toList then
        (none,
          some { command := "seekcur +".toList ++ fmt.decimal seconds,
                 result := executeMPDCommand sess ("seekcur +".toList ++ fmt.decimal seconds) })
      else
        (some e,
          some { command := "seekcur +".toList ++ fmt.decimal seconds,
                 result := executeMPDCommand sess ("seekcur +".toList ++ fmt.decimal seconds) })
  | none =>
      (none,
        some { command := "seekcur +".toList ++ fmt.decimal seconds,
               result := executeMPDCommand sess ("seekcur +".toList ++ fmt.decimal seconds) })

/-- A snapshot for running the façade on concrete states: the queue holds
one track `x.mp3` per given track id, and the cursor is at `h`. -/
def sampleState (ids : List Int) (h : Int) : state Unit :=
  { mpdState := mpdState.playMPDState, elapsed := none, songID := none,
    queue := ids.map (fun i =>
      { uri := "x.mp3".toList, songID := i, duration := (), title := [], artist := [],
        album := [], track := none }),
    highlighted := h }

/-- The key of a line of a listing: the text before the first `: `, or the
whole line when it has no `: `. -/
def keyOf (line : Str) : Str :=
  (strings.SplitN2 line ": ".toList).headD []

/-- The keys the queue parse recognises. -/
def recognisedKey (line : Str) : Bool :=
  decide (keyOf line = "file".toList) || decide (keyOf line = "Id".toList) ||
    decide (keyOf line = "duration".toList) || decide (keyOf line = "Title".toList) ||
    decide (keyOf line = "Artist".toList) || decide (keyOf line = "Album".toList) ||
    decide (keyOf line = "Track".toList)

/-- The Go function `strings.Join(lines, "\n")`. -/
def joinLines : List Str → Str
  | [] => []
  | [l] => l
  | l :: l2 :: ls => l ++ '\n' :: joinLines (l2 :: ls)

/-- The listing without the lines whose key is not recognised. -/
def removeUnrecognised (info : Str) : Str :=
  joinLines ((strings.Split info '\n').filter recognisedKey)

/-- The value of a line whose key is exactly `file`. -/
def fileValue (line : Str) : Option Str :=
  if strings.HasPrefix line "file: ".toList then some (line.drop 6) else none

/-- The non-empty values of the `file` lines of a listing, in order. -/
def fileValues (info : Str) : List Str :=
  ((strings.Split info '\n').filterMap fileValue).filter (fun v => decide (v ≠ []))
/-! ## Lemmas on the library functions -/

theorem HasPrefix_iff (s p : Str) : strings.HasPrefix s p = true ↔ ∃ t, s = p ++ t := by
  induction p generalizing s with
  | nil => simp [strings.HasPrefix]
  | cons a p ih =>
    cases s with
    | nil => simp [strings.HasPrefix]
    | cons c s =>
      simp only [strings.HasPrefix, Bool.and_eq_true, decide_eq_true_eq, ih, List.cons_append,
        List.cons.injEq]
      constructor
      · rintro ⟨h, t, ht⟩
        exact ⟨t, h, ht⟩
      · rintro ⟨t, h, ht⟩
        exact ⟨h, t, ht⟩

theorem HasPrefix_append (p t : Str) : strings.HasPrefix (p ++ t) p = true :=
  (HasPrefix_iff _ _).2 ⟨t, rfl⟩

theorem HasPrefix_self (s : Str) : strings.HasPrefix s s = true :=
  (HasPrefix_iff _ _).2 ⟨[], (List.append_nil s).symm⟩

theorem stateLine_play (line : Str) :
    (strings.HasPrefix line "state: ".toList = true ∧ line.drop 7 = "play".toList) ↔
      line = "state: play".toList := by
  constructor
  · rintro ⟨h, hd⟩
    obtain ⟨t, rfl⟩ := (HasPrefix_iff _ _).1 h
    simp at hd
    simp [hd]
  · rintro rfl
    decide

theorem stateLine_stop (line : Str) :
    (strings.HasPrefix line "state: ".toList = true ∧ line.drop 7 = "stop".toList) ↔
      line = "state: stop".toList := by
  constructor
  · rintro ⟨h, hd⟩
    obtain ⟨t, rfl⟩ := (HasPrefix_iff _ _).1 h
    simp at hd
    simp [hd]
  · rintro rfl
    decide

theorem stateLine_pause (line : Str) :
    (strings.HasPrefix line "state: ".toList = true ∧ line.drop 7 = "pause".toList) ↔
      line = "state: pause".toList := by
  constructor
  · rintro ⟨h, hd⟩
    obtain ⟨t, rfl⟩ := (HasPrefix_iff _ _).1 h
    simp at hd
    simp [hd]
  · rintro rfl
    decide

theorem getMPDStateLoop_cons (line : Str) (rest : List Str) :
    getMPDStateLoop (line :: rest) =
      if strings.HasPrefix line "state: ".toList && decide (line.length > 7) then
        if line.drop 7 = "play".toList then (mpdState.playMPDState, none)
        else if line.drop 7 = "stop".toList then (mpdState.stopMPDState, none)
        else if line.drop 7 = "pause".toList then (mpdState.pauseMPDState, none)
        else getMPDStateLoop rest
      else getMPDStateLoop rest := rfl

theorem getMPDStateLoop_eq (lines : List Str) :
    getMPDStateLoop lines =
      match lines.find? isStateLine with
      | some l => (stateOfLine l, none)
      | none => (mpdState.playMPDState, some (Err.text "mpdState not found".toList)) := by
  induction lines with
  | nil => rfl
  | cons line rest ih =>
    have hp := stateLine_play line
    have hs := stateLine_stop line
    have hz := stateLine_pause line
    by_cases h1 : line = "state: play".toList
    · subst h1; rfl
    by_cases h2 : line = "state: stop".toList
    · subst h2; rfl
    by_cases h3 : line = "state: pause".toList
    · subst h3; rfl
    have hf : isStateLine line = false := by
      unfold isStateLine
      rw [decide_eq_false h1, decide_eq_false h2, decide_eq_false h3]
      rfl
    rw [List.find?_cons_of_neg _ (by rw [hf]; exact Bool.false_ne_true), ← ih,
      getMPDStateLoop_cons]
    by_cases hpre : strings.HasPrefix line "state: ".toList = true
    · have d1 : ¬ line.drop 7 = "play".toList := fun h => h1 (hp.1 ⟨hpre, h⟩)
      have d2 : ¬ line.drop 7 = "stop".toList := fun h => h2 (hs.1 ⟨hpre, h⟩)
      have d3 : ¬ line.drop 7 = "pause".toList := fun h => h3 (hz.1 ⟨hpre, h⟩)
      simp only [d1, d2, d3, if_false, ite_self]
    · rw [Bool.not_eq_true] at hpre
      rw [hpre]
      rfl

/-! ## PlaybackState parse -/

/-- C4: `getMPDState` is decided by the first line of the status that is
exactly `state: play`, `state: stop` or `state: pause`: it returns the
playback state of that line and no error; when no line is one of the three
it returns the error "mpdState not found".  Hence it succeeds if and only if
some line is one of the three. -/
theorem getMPDState_first_state_line (status : Str) :
    getMPDState status =
      (match (strings.Split status '\n').find? isStateLine with
        | some l => (stateOfLine l, none)
        | none => (mpdState.playMPDState, some (Err.text "mpdState not found".toList))) ∧
    ((getMPDState status).2 = none ↔
      ∃ l ∈ strings.Split status '\n',
        l = "state: play".toList ∨ l = "state: stop".toList ∨ l = "state: pause".toList) ∧
    stateOfLine "state: play".toList = mpdState.playMPDState ∧
    stateOfLine "state: stop".toList = mpdState.stopMPDState ∧
    stateOfLine "state: pause".toList = mpdState.pauseMPDState := by
  have key := getMPDStateLoop_eq (strings.Split status '\n')
  refine ⟨key, ?_, by decide, by decide, by decide⟩
  unfold getMPDState
  rw [key]
  cases hf : (strings.Split status '\n').find? isStateLine with
  | none =>
    simp only [reduceCtorEq, false_iff, not_exists, not_and]
    intro l hl hl3
    have := List.find?_eq_none.1 hf l hl
    apply this
    unfold isStateLine
    rcases hl3 with h | h | h <;> subst h <;> decide
  | some l =>
    simp only [true_iff]
    refine ⟨l, List.mem_of_find?_eq_some hf, ?_⟩
    have := List.find?_some hf
    unfold isStateLine at this
    simpa only [Bool.or_eq_true, decide_eq_true_eq, or_assoc] using this

/-! ## Elapsed and SongID parse -/

theorem getElapsedLoop_absent {F : Type} (fl : Float32Lib F) (lines : List Str)
    (h : ∀ l ∈ lines, strings.HasPrefix l "elapsed: ".toList = false) :
    getElapsedLoop fl lines = (none, none) := by
  induction lines with
  | nil => rfl
  | cons line rest ih =>
    unfold getElapsedLoop
    rw [h line (List.mem_cons_self _ _)]
    exact ih (fun l hl => h l (List.mem_cons_of_mem _ hl))

theorem getSongIDLoop_absent (lines : List Str)
    (h : ∀ l ∈ lines, strings.HasPrefix l "songid: ".toList = false) :
    getSongIDLoop lines = (none, none) := by
  induction lines with
  | nil => rfl
  | cons line rest ih =>
    unfold getSongIDLoop
    rw [h line (List.mem_cons_self _ _)]
    exact ih (fun l hl => h l (List.mem_cons_of_mem _ hl))

/-- C8: a status none of whose lines starts with `elapsed: ` makes
`getElapsed` return the nil pointer and the nil error, and a status none of
whose lines starts with `songid: ` makes `getSongID` return the nil pointer
and the nil error. -/
theorem absent_field_is_not_an_error {F : Type} (fl : Float32Lib F) (status : Str) :
    ((∀ l ∈ strings.Split status '\n', strings.HasPrefix l "elapsed: ".toList = false) →
      getElapsed fl status = (none, none)) ∧
    ((∀ l ∈ strings.Split status '\n', strings.HasPrefix l "songid: ".toList = false) →
      getSongID status = (none, none)) :=
  ⟨getElapsedLoop_absent fl _, getSongIDLoop_absent _⟩

/-! ## Decimal integers and `strconv.Atoi` -/

theorem foldl_digit_mono (ds : Str) (n : Nat) :
    n ≤ ds.foldl (fun n c => n * 10 + (c.toNat - '0'.toNat)) n := by
  induction ds generalizing n with
  | nil => exact Nat.le_refl _
  | cons c cs ih =>
    simp only [List.foldl_cons]
    exact Nat.le_trans (by omega) (ih _)

theorem digit_of_isDigit (c : Char) (h : isDigit c = true) :
    strconv.digit c = some (c.toNat - '0'.toNat) := by
  unfold isDigit at h
  unfold strconv.digit
  rw [if_pos (of_decide_eq_true h)]

theorem digit_none_of_not_isDigit (c : Char) (h : isDigit c = false) :
    strconv.digit c = none := by
  unfold isDigit at h
  unfold strconv.digit
  rw [if_neg (of_decide_eq_false h)]

theorem parseUintLoop_cons_digit (c : Char) (cs : Str) (n : Nat) (h : isDigit c = true) :
    strconv.parseUintLoop n (c :: cs) =
      if n ≥ (2 ^ 64 - 1) / 10 + 1 then (2 ^ 64 - 1, some true)
      else if n * 10 + (c.toNat - '0'.toNat) > 2 ^ 64 - 1 then (2 ^ 64 - 1, some true)
      else strconv.parseUintLoop (n * 10 + (c.toNat - '0'.toNat)) cs := by
  rw [strconv.parseUintLoop, digit_of_isDigit c h]

theorem parseUintLoop_cons_other (c : Char) (cs : Str) (n : Nat) (h : isDigit c = false) :
    strconv.parseUintLoop n (c :: cs) = (0, some false) := by
  rw [strconv.parseUintLoop, digit_none_of_not_isDigit c h]

theorem parseUintLoop_ok (ds : Str) (n : Nat) (hd : ds.all isDigit = true)
    (hv : ds.foldl (fun n c => n * 10 + (c.toNat - '0'.toNat)) n < 2 ^ 64) :
    strconv.parseUintLoop n ds =
      (ds.foldl (fun n c => n * 10 + (c.toNat - '0'.toNat)) n, none) := by
  induction ds generalizing n with
  | nil => rfl
  | cons c cs ih =>
    simp only [List.all_cons, Bool.and_eq_true] at hd
    simp only [List.foldl_cons] at hv ⊢
    have hm := foldl_digit_mono cs (n * 10 + (c.toNat - '0'.toNat))
    rw [parseUintLoop_cons_digit c cs n hd.1]
    have h64 : (2 : Nat) ^ 64 = 18446744073709551616 := by norm_num
    rw [h64] at hv
    have c1 : ¬ n ≥ (2 ^ 64 - 1) / 10 + 1 := by
      rw [h64]; omega
    have c2 : ¬ n * 10 + (c.toNat - '0'.toNat) > 2 ^ 64 - 1 := by
      rw [h64]; omega
    rw [if_neg c1, if_neg c2]
    exact ih _ hd.2 (by rw [h64]; exact hv)

theorem parseUintLoop_err (ds : Str) (n : Nat) :
    (strconv.parseUintLoop n ds).2 = some false ∨
    strconv.parseUintLoop n ds = (2 ^ 64 - 1, some true) ∨
    (ds.all isDigit = true ∧
      strconv.parseUintLoop n ds =
        (ds.foldl (fun n c => n * 10 + (c.toNat - '0'.toNat)) n, none)) := by
  induction ds generalizing n with
  | nil => exact Or.inr (Or.inr ⟨rfl, rfl⟩)
  | cons c cs ih =>
    cases hc : isDigit c with
    | false =>
      rw [parseUintLoop_cons_other c cs n hc]
      exact Or.inl rfl
    | true =>
      rw [parseUintLoop_cons_digit c cs n hc]
      by_cases c1 : n ≥ (2 ^ 64 - 1) / 10 + 1
      · rw [if_pos c1]
        exact Or.inr (Or.inl rfl)
      by_cases c2 : n * 10 + (c.toNat - '0'.toNat) > 2 ^ 64 - 1
      · rw [if_neg c1, if_pos c2]
        exact Or.inr (Or.inl rfl)
      rw [if_neg c1, if_neg c2]
      rcases ih (n * 10 + (c.toNat - '0'.toNat)) with h | h | h
      · exact Or.inl h
      · exact Or.inr (Or.inl h)
      · refine Or.inr (Or.inr ⟨?_, ?_⟩)
        · simp only [List.all_cons, hc, h.1, Bool.and_self]
        · simpa only [List.foldl_cons] using h.2

theorem ParseUint_ok (ds : Str) (hne : ds ≠ []) (hd : ds.all isDigit = true)
    (hv : digitsValue ds < 2 ^ 64) : strconv.ParseUint ds = (digitsValue ds, none) := by
  unfold strconv.ParseUint
  rw [if_neg hne]
  exact parseUintLoop_ok ds 0 hd hv

theorem ParseUint_cases (ds : Str) :
    (strconv.ParseUint ds).2 = some false ∨
    strconv.ParseUint ds = (2 ^ 64 - 1, some true) ∨
    ((ds ≠ [] ∧ ds.all isDigit = true) ∧ strconv.ParseUint ds = (digitsValue ds, none)) := by
  unfold strconv.ParseUint
  by_cases hne : ds = []
  · rw [if_pos hne]
    exact Or.inl rfl
  · rw [if_neg hne]
    rcases parseUintLoop_err ds 0 with h | h | h
    · exact Or.inl h
    · exact Or.inr (Or.inl h)
    · exact Or.inr (Or.inr ⟨⟨hne, h.1⟩, h.2⟩)

/-- The body `Atoi` hands to `ParseUint`, and whether the sign is `-`. -/
theorem Atoi_of_body (s body : Str) (neg : Bool) (hs : s ≠ [])
    (hneg : decide (s.head? = some '-') = neg)
    (hbody : (if s.head? = some '+' ∨ s.head? = some '-' then s.drop 1 else s) = body)
    (n : Int) :
    strconv.Atoi s = (n, none) ↔
      ((body ≠ [] ∧ body.all isDigit = true) ∧
        (if neg = true then digitsValue body ≤ 2 ^ 63 ∧ n = -(digitsValue body : Int)
          else digitsValue body < 2 ^ 63 ∧ n = (digitsValue body : Int))) := by
  have h63 : (2 : Nat) ^ 63 = 9223372036854775808 := by norm_num
  have h64 : (2 : Nat) ^ 64 = 18446744073709551616 := by norm_num
  have hok : (body ≠ [] ∧ body.all isDigit = true) →
      (if neg = true then digitsValue body ≤ 2 ^ 63 ∧ n = -(digitsValue body : Int)
          else digitsValue body < 2 ^ 63 ∧ n = (digitsValue body : Int)) →
      strconv.ParseUint body = (digitsValue body, none) := by
    intro hb hv
    apply ParseUint_ok body hb.1 hb.2
    rw [h64]
    rw [h63] at hv
    cases neg
    · simp only [Bool.false_eq_true, if_false] at hv; omega
    · simp only [if_true] at hv; omega
  unfold strconv.Atoi
  rw [if_neg hs]
  simp only [hneg, hbody]
  rcases ParseUint_cases body with h | h | h
  · constructor
    · intro hl
      generalize hp : strconv.ParseUint body = p at hl h
      obtain ⟨un, e⟩ := p
      simp only at h
      subst h
      simp at hl
    · rintro ⟨hb, hv⟩
      rw [hok hb hv] at h
      simp at h
  · constructor
    · intro hl
      rw [h] at hl
      cases neg <;> simp at hl
    · rintro ⟨hb, hv⟩
      rw [hok hb hv] at h
      simp at h
  · rw [h.2]
    simp only [h.1, true_and, ne_eq, not_false_eq_true, and_self]
    cases neg
    · by_cases hv : digitsValue body < 2 ^ 63
      · have : ¬ digitsValue body ≥ 2 ^ 63 := by omega
        rw [h63] at hv this
        simp [hv, this, eq_comm]
      · have : digitsValue body ≥ 2 ^ 63 := by omega
        rw [h63] at hv this
        simp [hv, this]
    · by_cases hv : digitsValue body ≤ 2 ^ 63
      · have : ¬ digitsValue body > 2 ^ 63 := by omega
        rw [h63] at hv this
        simp [hv, this, eq_comm]
      · have : digitsValue body > 2 ^ 63 := by omega
        rw [h63] at hv this
        simp [hv, this]

theorem decimalValue_other (c : Char) (cs : Str) (h1 : c ≠ '-') (h2 : c ≠ '+') :
    decimalValue (c :: cs) =
      if (c :: cs) ≠ [] ∧ (c :: cs).all isDigit then some (digitsValue (c :: cs) : Int)
      else none := by
  unfold decimalValue
  split
  · rename_i heq
    simp only [List.cons.injEq] at heq
    exact absurd heq.1 h1
  · rename_i heq
    simp only [List.cons.injEq] at heq
    exact absurd heq.1 h2
  · rfl

theorem decimalValue_minus (cs : Str) :
    decimalValue ('-' :: cs) =
      if cs ≠ [] ∧ cs.all isDigit then some (-(digitsValue cs : Int)) else none := rfl

theorem decimalValue_plus (cs : Str) :
    decimalValue ('+' :: cs) =
      if cs ≠ [] ∧ cs.all isDigit then some (digitsValue cs : Int) else none := rfl

theorem validInt_of_some (s : Str) (v : Int) (h : decimalValue s = some v) (n : Int) :
    validInt s = some n ↔ (-(2 ^ 63 : Int) ≤ v ∧ v < 2 ^ 63) ∧ n = v := by
  unfold validInt
  rw [h]
  by_cases hr : -(2 ^ 63 : Int) ≤ v ∧ v < 2 ^ 63
  · simp only [hr, and_self, if_true, Option.some.injEq, true_and]
    exact eq_comm
  · simp only [hr, if_false, false_and]
    simp

theorem validInt_of_none (s : Str) (h : decimalValue s = none) : validInt s = none := by
  unfold validInt
  rw [h]

/-- The model of `strconv.Atoi` accepts exactly the valid decimal integers,
with their value. -/
theorem Atoi_eq_iff (s : Str) (n : Int) : strconv.Atoi s = (n, none) ↔ validInt s = some n := by
  have h63 : (2 : Int) ^ 63 = 9223372036854775808 := by norm_num
  have h63n : (2 : Nat) ^ 63 = 9223372036854775808 := by norm_num
  cases s with
  | nil => simp [strconv.Atoi, validInt, decimalValue]
  | cons c cs =>
    by_cases hm : c = '-'
    · subst hm
      rw [Atoi_of_body ('-' :: cs) cs true (by simp) (by simp) (by simp) n, if_pos rfl]
      by_cases hb : cs ≠ [] ∧ cs.all isDigit = true
      · have hd : decimalValue ('-' :: cs) = some (-(digitsValue cs : Int)) := by
          rw [decimalValue_minus, if_pos hb]
        rw [validInt_of_some _ _ hd, h63, h63n]
        constructor
        · rintro ⟨_, h1, h2⟩
          exact ⟨by omega, h2⟩
        · rintro ⟨h1, h2⟩
          exact ⟨hb, by omega, h2⟩
      · have hd : decimalValue ('-' :: cs) = none := by
          rw [decimalValue_minus, if_neg hb]
        rw [validInt_of_none _ hd]
        simp only [hb, false_and, reduceCtorEq]
    by_cases hp : c = '+'
    · subst hp
      rw [Atoi_of_body ('+' :: cs) cs false (by simp) (by simp) (by simp) n,
        if_neg Bool.false_ne_true]
      by_cases hb : cs ≠ [] ∧ cs.all isDigit = true
      · have hd : decimalValue ('+' :: cs) = some (digitsValue cs : Int) := by
          rw [decimalValue_plus, if_pos hb]
        rw [validInt_of_some _ _ hd, h63, h63n]
        constructor
        · rintro ⟨_, h1, h2⟩
          exact ⟨by omega, h2⟩
        · rintro ⟨h1, h2⟩
          exact ⟨hb, by omega, h2⟩
      · have hd : decimalValue ('+' :: cs) = none := by
          rw [decimalValue_plus, if_neg hb]
        rw [validInt_of_none _ hd]
        simp only [hb, false_and, reduceCtorEq]
    · rw [Atoi_of_body (c :: cs) (c :: cs) false (by simp) (by simp [hm])
        (by simp [hm, hp]) n, if_neg Bool.false_ne_true]
      by_cases hb : (c :: cs) ≠ [] ∧ (c :: cs).all isDigit = true
      · have hd : decimalValue (c :: cs) = some (digitsValue (c :: cs) : Int) := by
          rw [decimalValue_other c cs hm hp, if_pos hb]
        rw [validInt_of_some _ _ hd, h63, h63n]
        constructor
        · rintro ⟨_, h1, h2⟩
          exact ⟨by omega, h2⟩
        · rintro ⟨h1, h2⟩
          exact ⟨hb, by omega, h2⟩
      · have hd : decimalValue (c :: cs) = none := by
          rw [decimalValue_other c cs hm hp, if_neg hb]
        rw [validInt_of_none _ hd]
        simp only [hb, false_and, reduceCtorEq]

theorem Atoi_of_validInt (s : Str) (n : Int) (h : validInt s = some n) :
    strconv.Atoi s = (n, none) := (Atoi_eq_iff s n).2 h

theorem Atoi_err_of_not_validInt (s : Str) (h : validInt s = none) :
    (strconv.Atoi s).2 ≠ none := by
  intro he
  have : strconv.Atoi s = ((strconv.Atoi s).1, none) := by rw [← he]
  rw [Atoi_eq_iff, h] at this
  exact absurd this (by simp)


/-! ## SongID parse of a present value -/

theorem getSongIDLoop_eq (lines : List Str) :
    getSongIDLoop lines =
      match lines.find?
        (fun l => strings.HasPrefix l "songid: ".toList && decide (l.length > 8)) with
      | none => (none, none)
      | some l => (some (strconv.Atoi (l.drop 8)).1, (strconv.Atoi (l.drop 8)).2) := by
  induction lines with
  | nil => rfl
  | cons line rest ih =>
    rw [getSongIDLoop, List.find?_cons]
    cases hp : (strings.HasPrefix line "songid: ".toList && decide (line.length > 8)) with
    | true => rfl
    | false => exact ih

theorem Atoi_err_form (s : Str) :
    (strconv.Atoi s).2 = none ∨ ∃ r, (strconv.Atoi s).2 = some (Err.num "Atoi".toList s r) := by
  unfold strconv.Atoi
  split
  · exact Or.inr ⟨false, rfl⟩
  · dsimp only
    split
    · exact Or.inr ⟨false, rfl⟩
    · split
      · exact Or.inr ⟨true, rfl⟩
      · split
        · exact Or.inr ⟨true, rfl⟩
        · exact Or.inl rfl

/-- C7, as amended: let `l` be the first line of the status that starts with
`songid: ` and is longer than that prefix (a line that is exactly `songid: `
is passed over), and `t` the text after the prefix.  When `t` is a valid
decimal integer `getSongID` returns it and no error; when it is not,
`getSongID` returns a `strconv.Atoi` error for `t` next to a non-nil
pointer. -/
theorem getSongID_first_value (status l : Str)
    (hfirst : (strings.Split status '\n').find?
      (fun l => strings.HasPrefix l "songid: ".toList && decide (l.length > 8)) = some l) :
    (∀ n, validInt (l.drop 8) = some n → getSongID status = (some n, none)) ∧
    (validInt (l.drop 8) = none →
      ∃ v r, getSongID status = (some v, some (Err.num "Atoi".toList (l.drop 8) r))) := by
  unfold getSongID
  rw [getSongIDLoop_eq, hfirst]
  constructor
  · intro n hn
    show (some (strconv.Atoi (l.drop 8)).1, (strconv.Atoi (l.drop 8)).2) = _
    rw [Atoi_of_validInt _ n hn]
  · intro hn
    rcases Atoi_err_form (l.drop 8) with h | ⟨r, h⟩
    · exact absurd h (Atoi_err_of_not_validInt _ hn)
    · refine ⟨(strconv.Atoi (l.drop 8)).1, r, ?_⟩
      show (some (strconv.Atoi (l.drop 8)).1, (strconv.Atoi (l.drop 8)).2) = _
      rw [h]

/-- The hypothesis of `getSongID_first_value` at a status whose first
`songid: ` line has no value and whose second has the value `12`. -/
theorem getSongID_first_value_witness :
    (strings.Split "volume: 3\nsongid: \nsongid: 12\n".toList '\n').find?
      (fun l => strings.HasPrefix l "songid: ".toList && decide (l.length > 8)) =
        some "songid: 12".toList ∧
    getSongID "volume: 3\nsongid: \nsongid: 12\n".toList = (some 12, none) :=
  ⟨by decide,
    (getSongID_first_value "volume: 3\nsongid: \nsongid: 12\n".toList "songid: 12".toList
      (by decide)).1 12 (by decide)⟩

/-- C7, as stated, fails: the status `songid: ` has a line with the prefix,
the text after it is empty and is not a valid integer (`Atoi` rejects it),
yet `getSongID` returns the nil pointer and no error. -/
theorem getSongID_empty_value_is_absent :
    (strings.Split "songid: ".toList '\n').find?
      (fun l => strings.HasPrefix l "songid: ".toList) = some "songid: ".toList ∧
    ("songid: ".toList).drop 8 = [] ∧
    validInt [] = none ∧ (strconv.Atoi []).2 ≠ none ∧
    getSongID "songid: ".toList = (none, none) := by
  decide

/-- The hypotheses of `absent_field_is_not_an_error` at a status with
neither field. -/
theorem absent_field_is_not_an_error_witness :
    (∀ l ∈ strings.Split "volume: 3\nstate: stop\n".toList '\n',
      strings.HasPrefix l "elapsed: ".toList = false) ∧
    getElapsed unitFloat "volume: 3\nstate: stop\n".toList = (none, none) ∧
    (∀ l ∈ strings.Split "volume: 3\nstate: stop\n".toList '\n',
      strings.HasPrefix l "songid: ".toList = false) ∧
    getSongID "volume: 3\nstate: stop\n".toList = (none, none) :=
  ⟨by decide,
    (absent_field_is_not_an_error unitFloat "volume: 3\nstate: stop\n".toList).1 (by decide),
    by decide,
    (absent_field_is_not_an_error unitFloat "volume: 3\nstate: stop\n".toList).2 (by decide)⟩


/-! ## Command execution -/

theorem ReadString_line (body rest : Str) (h : '\n' ∉ body) :
    bufio.ReadString '\n' (body ++ '\n' :: rest) = (body ++ ['\n'], some rest) := by
  induction body with
  | nil => simp [bufio.ReadString]
  | cons c cs ih =>
    have hc : c ≠ '\n' := fun e => h (by simp [e])
    have hcs : '\n' ∉ cs := fun e => h (List.mem_cons_of_mem _ e)
    rw [List.cons_append, bufio.ReadString, if_neg hc, ih hcs]
    rfl

/-- The reply lines `b ++ "\n"` of the bodies `bs`, concatenated. -/
theorem readLoop_lines (readErr : Err) (bs : List Str) (rest acc : Str) (fuel : Nat)
    (hlines : ∀ b ∈ bs, '\n' ∉ b ∧ b ++ "\n".toList ≠ "OK\n".toList ∧
      strings.HasPrefix (b ++ "\n".toList) "ACK ".toList = false) :
    readLoop readErr (bs.length + fuel) ((bs.map (· ++ "\n".toList)).flatten ++ rest) acc =
      readLoop readErr fuel rest (acc ++ (bs.map (· ++ "\n".toList)).flatten) := by
  induction bs generalizing acc with
  | nil => simp
  | cons b bs ih =>
    obtain ⟨hnl, hok, hack⟩ := hlines b (List.mem_cons_self _ _)
    have hne : ¬ b ++ ['\n'] = "OK\n".toList := hok
    have e1 : (b :: bs).length + fuel = (bs.length + fuel) + 1 := by
      simp only [List.length_cons]; omega
    have e2 : ((b :: bs).map (· ++ "\n".toList)).flatten ++ rest =
        b ++ '\n' :: ((bs.map (· ++ "\n".toList)).flatten ++ rest) := by
      simp
    rw [e1, e2, readLoop, ReadString_line _ _ hnl]
    simp only
    rw [if_neg hne]
    have hack2 : strings.HasPrefix (b ++ ['\n']) "ACK ".toList = false := hack
    rw [hack2]
    simp only [Bool.false_eq_true, if_false]
    rw [ih _ (fun b hb => hlines b (List.mem_cons_of_mem _ hb))]
    simp

theorem length_le_flatten_lines (bs : List Str) :
    bs.length ≤ ((bs.map (· ++ "\n".toList)).flatten).length := by
  induction bs with
  | nil => simp
  | cons b bs ih =>
    simp only [List.map_cons, List.flatten_cons, List.length_append, List.length_cons]
    have : ("\n".toList).length = 1 := rfl
    omega

theorem initiateMPDConnection_ok (sess : Session) (v rest : Str)
    (hdial : sess.dialErr = none) (hv : '\n' ∉ v)
    (hgreet : sess.greeting = "OK MPD ".toList ++ v ++ '\n' :: rest) :
    initiateMPDConnection sess = (some { written := [], closed := false }, none) := by
  unfold initiateMPDConnection
  rw [hdial, hgreet]
  have hnl : '\n' ∉ "OK MPD ".toList ++ v := by
    intro h
    rcases List.mem_append.1 h with h | h
    · revert h; decide
    · exact hv h
  simp only [ReadString_line _ _ hnl]
  rw [List.append_assoc, HasPrefix_append]
  rfl

theorem executeMPDCommand_of_connected (sess : Session) (command : Str)
    (h : initiateMPDConnection sess = (some { written := [], closed := false }, none)) :
    executeMPDCommand sess command =
      { resp := (readLoop sess.readErr (sess.reply.length + 1) sess.reply []).1,
        err := (readLoop sess.readErr (sess.reply.length + 1) sess.reply []).2,
        conn := some { written := command ++ "\n".toList, closed := true } } := by
  unfold executeMPDCommand
  rw [h]
  simp

/-- What the read loop returns on a reply made of the lines of `bs` followed
by the bytes `rest`, in terms of one more iteration on `rest`. -/
theorem readLoop_reply (readErr : Err) (bs : List Str) (rest : Str)
    (hlines : ∀ b ∈ bs, '\n' ∉ b ∧ b ++ "\n".toList ≠ "OK\n".toList ∧
      strings.HasPrefix (b ++ "\n".toList) "ACK ".toList = false) :
    ∃ k, readLoop readErr (((bs.map (· ++ "\n".toList)).flatten ++ rest).length + 1)
        ((bs.map (· ++ "\n".toList)).flatten ++ rest) [] =
      readLoop readErr (k + 1) rest ((bs.map (· ++ "\n".toList)).flatten) := by
  have hl := length_le_flatten_lines bs
  refine ⟨((bs.map (· ++ "\n".toList)).flatten ++ rest).length - bs.length, ?_⟩
  have e : ((bs.map (· ++ "\n".toList)).flatten ++ rest).length + 1 =
      bs.length + ((((bs.map (· ++ "\n".toList)).flatten ++ rest).length - bs.length) + 1) := by
    simp only [List.length_append]
    omega
  rw [e, readLoop_lines readErr bs rest [] _ hlines]
  simp

theorem Contains_of_HasPrefix (s sub : Str) (h : strings.HasPrefix s sub = true) :
    strings.Contains s sub = true := by
  cases s with
  | nil => exact h
  | cons c cs =>
    unfold strings.Contains
    rw [h]
    rfl

theorem Contains_append_left (p s sub : Str) (h : strings.Contains s sub = true) :
    strings.Contains (p ++ s) sub = true := by
  induction p with
  | nil => exact h
  | cons c cs ih =>
    rw [List.cons_append, strings.Contains, ih]
    exact Bool.or_true _

/-- C2: after a valid greeting, a reply made of lines none of which is
`"OK\n"` or starts with `"ACK "`, followed by the line `"OK\n"` and by any
further bytes, makes `executeMPDCommand` return the concatenation of those
lines and no error. -/
theorem executeMPDCommand_ok_framing (sess : Session) (command v grest : Str)
    (bs : List Str) (tail : Str)
    (hdial : sess.dialErr = none) (hv : '\n' ∉ v)
    (hgreet : sess.greeting = "OK MPD ".toList ++ v ++ '\n' :: grest)
    (hlines : ∀ b ∈ bs, '\n' ∉ b ∧ b ++ "\n".toList ≠ "OK\n".toList ∧
      strings.HasPrefix (b ++ "\n".toList) "ACK ".toList = false)
    (hreply : sess.reply = (bs.map (· ++ "\n".toList)).flatten ++ ("OK\n".toList ++ tail)) :
    (executeMPDCommand sess command).resp = (bs.map (· ++ "\n".toList)).flatten ∧
    (executeMPDCommand sess command).err = none := by
  rw [executeMPDCommand_of_connected sess command
    (initiateMPDConnection_ok sess v grest hdial hv hgreet), hreply]
  obtain ⟨k, hk⟩ := readLoop_reply sess.readErr bs ("OK\n".toList ++ tail) hlines
  simp only [hk]
  have : readLoop sess.readErr (k + 1) ("OK\n".toList ++ tail)
      ((bs.map (· ++ "\n".toList)).flatten) = ((bs.map (· ++ "\n".toList)).flatten, none) := by
    rw [readLoop]
    have : "OK\n".toList ++ tail = "OK".toList ++ '\n' :: tail := rfl
    rw [this, ReadString_line _ _ (by decide)]
    simp
  rw [this]
  exact ⟨rfl, rfl⟩

/-- The hypotheses of `executeMPDCommand_ok_framing` at the reply
`foo: bar\nOK\n`, with the result. -/
theorem executeMPDCommand_ok_framing_witness :
    (executeMPDCommand
      (sessionReplying "foo: bar\nOK\n".toList) "status".toList).resp = "foo: bar\n".toList ∧
    (executeMPDCommand
      (sessionReplying "foo: bar\nOK\n".toList) "status".toList).err = none :=
  executeMPDCommand_ok_framing _ "status".toList "0.23.5".toList [] ["foo: bar".toList] []
    rfl (by decide) rfl (by decide) rfl

/-- C3, as amended: after a valid greeting, a reply made of lines none of
which is `"OK\n"` or starts with `"ACK "`, followed by a line that starts
with `"ACK "`, makes `executeMPDCommand` return the error
`received mpd error <that line>`, whose text contains the raw ACK line, and
next to it the concatenation of the lines received before the ACK line. -/
theorem executeMPDCommand_ack_framing (sess : Session) (command v grest : Str)
    (bs : List Str) (a tail : Str)
    (hdial : sess.dialErr = none) (hv : '\n' ∉ v)
    (hgreet : sess.greeting = "OK MPD ".toList ++ v ++ '\n' :: grest)
    (hlines : ∀ b ∈ bs, '\n' ∉ b ∧ b ++ "\n".toList ≠ "OK\n".toList ∧
      strings.HasPrefix (b ++ "\n".toList) "ACK ".toList = false)
    (ha : '\n' ∉ a) (hack : strings.HasPrefix (a ++ "\n".toList) "ACK ".toList = true)
    (hreply : sess.reply = (bs.map (· ++ "\n".toList)).flatten ++ (a ++ "\n".toList ++ tail)) :
    (executeMPDCommand sess command).err =
      some (Err.text ("received mpd error ".toList ++ (a ++ "\n".toList))) ∧
    (∀ quote : Str → Str,
      strings.Contains
        ((Err.text ("received mpd error ".toList ++ (a ++ "\n".toList))).Error quote)
        (a ++ "\n".toList) = true) ∧
    (executeMPDCommand sess command).resp = (bs.map (· ++ "\n".toList)).flatten := by
  rw [executeMPDCommand_of_connected sess command
    (initiateMPDConnection_ok sess v grest hdial hv hgreet), hreply]
  obtain ⟨k, hk⟩ := readLoop_reply sess.readErr bs (a ++ "\n".toList ++ tail) hlines
  simp only [hk]
  have hne : ¬ a ++ ['\n'] = "OK\n".toList := by
    intro e
    have h2 : strings.HasPrefix (a ++ ['\n']) "ACK ".toList = true := hack
    rw [e] at h2
    revert h2
    decide
  have : readLoop sess.readErr (k + 1) (a ++ "\n".toList ++ tail)
      ((bs.map (· ++ "\n".toList)).flatten) =
        ((bs.map (· ++ "\n".toList)).flatten,
          some (Err.text ("received mpd error ".toList ++ (a ++ "\n".toList)))) := by
    rw [readLoop]
    have e : a ++ "\n".toList ++ tail = a ++ '\n' :: tail := by simp
    rw [e, ReadString_line _ _ ha]
    simp only
    rw [if_neg hne]
    have h2 : strings.HasPrefix (a ++ ['\n']) "ACK ".toList = true := hack
    rw [h2]
    rfl
  rw [this]
  refine ⟨rfl, ?_, rfl⟩
  intro quote
  exact Contains_append_left _ _ _ (Contains_of_HasPrefix _ _ (HasPrefix_self _))

/-- The hypotheses of `executeMPDCommand_ack_framing` at the reply
`foo: bar\nACK error message\n`, with the result. -/
theorem executeMPDCommand_ack_framing_witness :
    (executeMPDCommand
      (sessionReplying "foo: bar\nACK error message\n".toList) "status".toList).err =
      some (Err.text "received mpd error ACK error message\n".toList) :=
  (executeMPDCommand_ack_framing _ "status".toList "0.23.5".toList [] ["foo: bar".toList]
    "ACK error message".toList [] rfl (by decide) rfl (by decide) (by decide) (by decide) rfl).1

/-- C3, as stated, fails: on the reply `foo: bar\nACK error message\n` the
call returns the ACK error, and the payload returned with it is the line
received before the ACK line, not the empty string. -/
theorem executeMPDCommand_ack_keeps_payload :
    (executeMPDCommand
      (sessionReplying "foo: bar\nACK error message\n".toList) "status".toList).err =
      some (Err.text "received mpd error ACK error message\n".toList) ∧
    (executeMPDCommand
      (sessionReplying "foo: bar\nACK error message\n".toList) "status".toList).resp = "foo: bar\n".toList ∧
    (executeMPDCommand
      (sessionReplying "foo: bar\nACK error message\n".toList) "status".toList).resp ≠ [] := by
  decide


/-! ## Event watcher -/

theorem scanChanges_eq (lines : List Str) :
    scanChanges lines =
      if lines.any
        (fun l => strings.Contains l "playlist".toList || strings.Contains l "player".toList)
      then [Action.send event.updateStateEvent] else [] := by
  induction lines with
  | nil => rfl
  | cons line rest ih =>
    rw [scanChanges, List.any_cons]
    cases h : (strings.Contains line "playlist".toList || strings.Contains line "player".toList)
    · simpa using ih
    · simp

theorem sends_of_trace (r : Session → Bool) (succ : List Session) :
    ((succ.flatMap (fun s =>
        Action.idle :: (if r s then [Action.send event.updateStateEvent] else [])) ++
      [Action.idle]).filter (fun a => decide (a = Action.send event.updateStateEvent))).length =
      (succ.filter r).length := by
  induction succ with
  | nil => rfl
  | cons s succ ih =>
    rw [List.flatMap_cons, List.append_assoc, List.filter_append, List.length_append, ih]
    cases h : r s
    · simp [List.filter_cons, h]
    · simp [List.filter_cons, h]
      omega

/-- C10: on a sequence of sessions whose `idle` commands succeed, followed by
one whose command fails and by any further sessions, `handleMpdEvents`
runs the command once per successful session and once for the failing one,
sends one event right after each successful response that has a line
containing `playlist` or `player` and none after the others, and leaves the
further sessions unused; so the number of events sent is the number of such
responses. -/
theorem handleMpdEvents_trace (succ : List Session) (fail : Session) (later : List Session)
    (hsucc : ∀ s ∈ succ, (executeMPDCommand s "idle".toList).err = none)
    (hfail : (executeMPDCommand fail "idle".toList).err ≠ none) :
    handleMpdEvents (succ ++ fail :: later) =
      (succ.flatMap (fun s =>
          Action.idle ::
            (if relevant (executeMPDCommand s "idle".toList).resp
              then [Action.send event.updateStateEvent] else [])) ++ [Action.idle],
        later) ∧
    ((handleMpdEvents (succ ++ fail :: later)).1.filter
        (fun a => decide (a = Action.send event.updateStateEvent))).length =
      (succ.filter (fun s => relevant (executeMPDCommand s "idle".toList).resp)).length := by
  have h1 : handleMpdEvents (succ ++ fail :: later) =
      (succ.flatMap (fun s =>
          Action.idle ::
            (if relevant (executeMPDCommand s "idle".toList).resp
              then [Action.send event.updateStateEvent] else [])) ++ [Action.idle],
        later) := by
    induction succ with
    | nil =>
      obtain ⟨e, he⟩ := Option.ne_none_iff_exists'.1 hfail
      rw [List.nil_append, handleMpdEvents, he]
      rfl
    | cons s succ ih =>
      have hs := hsucc s (List.mem_cons_self _ _)
      have ih1 := ih (fun t ht => hsucc t (List.mem_cons_of_mem _ ht))
      rw [List.cons_append, handleMpdEvents, hs]
      simp only
      rw [ih1, scanChanges_eq]
      simp only [List.flatMap_cons, relevant, List.cons_append, List.append_assoc]
  refine ⟨h1, ?_⟩
  rw [h1]
  exact sends_of_trace (fun s => relevant (executeMPDCommand s "idle".toList).resp) succ

/-- The hypotheses of `handleMpdEvents_trace` at three successful responses
of which only the second contains `player`, then a connection the server
closes at once, then a session that is never used: one event, right after
the second response. -/
theorem handleMpdEvents_trace_witness :
    handleMpdEvents
      [sessionReplying "changed: mixer\nOK\n".toList,
        sessionReplying "changed: player\nchanged: playlist\nOK\n".toList,
        sessionReplying "changed: Player\nOK\n".toList,
        sessionReplying [],
        sessionReplying "changed: player\nOK\n".toList] =
      ([Action.idle, Action.idle, Action.send event.updateStateEvent, Action.idle, Action.idle],
        [sessionReplying "changed: player\nOK\n".toList]) :=
  (handleMpdEvents_trace
    [sessionReplying "changed: mixer\nOK\n".toList,
      sessionReplying "changed: player\nchanged: playlist\nOK\n".toList,
      sessionReplying "changed: Player\nOK\n".toList]
    (sessionReplying [])
    [sessionReplying "changed: player\nOK\n".toList]
    (by decide) (by decide)).1


/-! ## Queue parse -/

theorem fillQueueLine_queue {F : Type} (fl : Float32Lib F) (line : Str) (s : song F)
    (q : List (song F)) :
    fillQueueLine fl line s q =
      ((fillQueueLine fl line s []).1, q ++ (fillQueueLine fl line s []).2.1,
        (fillQueueLine fl line s []).2.2) := by
  unfold fillQueueLine
  dsimp only
  generalize strings.SplitN2 line ": ".toList = split
  generalize strconv.Atoi (split.getD 1 []) = a
  generalize fl.parse (split.getD 1 []) = f
  obtain ⟨i, e⟩ := a
  obtain ⟨x, e2⟩ := f
  by_cases h1 : split.headD [] = "file".toList
  · simp only [h1, if_true]
    split_ifs <;> simp only [List.append_nil, List.nil_append]
  simp only [h1, if_false]
  by_cases h2 : split.headD [] = "Id".toList
  · simp only [h2, if_true]
    cases e <;> split_ifs <;> simp only [List.append_nil, List.nil_append]
  simp only [h2, if_false]
  by_cases h3 : split.headD [] = "duration".toList
  · simp only [h3, if_true]
    cases e2 <;> split_ifs <;> simp only [List.append_nil, List.nil_append]
  simp only [h3, if_false]
  by_cases h4 : split.headD [] = "Title".toList
  · simp only [h4, if_true]
    split_ifs <;> simp only [List.append_nil, List.nil_append]
  simp only [h4, if_false]
  by_cases h5 : split.headD [] = "Artist".toList
  · simp only [h5, if_true]
    split_ifs <;> simp only [List.append_nil, List.nil_append]
  simp only [h5, if_false]
  by_cases h6 : split.headD [] = "Album".toList
  · simp only [h6, if_true]
    split_ifs <;> simp only [List.append_nil, List.nil_append]
  simp only [h6, if_false]
  by_cases h7 : split.headD [] = "Track".toList
  · simp only [h7, if_true]
    cases e <;> split_ifs <;> simp only [List.append_nil, List.nil_append]
  simp only [h7, if_false, List.append_nil]

theorem fillQueueLoop_queue {F : Type} (fl : Float32Lib F) (lines : List Str) (s : song F)
    (q : List (song F)) :
    fillQueueLoop fl lines s q =
      ((fillQueueLoop fl lines s []).1, q ++ (fillQueueLoop fl lines s []).2.1,
        (fillQueueLoop fl lines s []).2.2) := by
  induction lines generalizing s q with
  | nil => simp [fillQueueLoop]
  | cons line rest ih =>
    rw [fillQueueLoop, fillQueueLine_queue fl line s q]
    conv_rhs => rw [fillQueueLoop]
    generalize fillQueueLine fl line s [] = r
    obtain ⟨s1, q1, e⟩ := r
    cases e with
    | some e => simp
    | none =>
      simp only
      rw [ih s1 (q ++ q1), ih s1 q1]
      simp


theorem SplitN2_file (v : Str) :
    strings.SplitN2 ("file: ".toList ++ v) ": ".toList = ["file".toList, v] := by
  simp [strings.SplitN2, strings.cut, strings.HasPrefix]

theorem SplitN2_tag (t : Tag) (v : Str) :
    strings.SplitN2 (t.key ++ ": ".toList ++ v) ": ".toList = [t.key, v] := by
  cases t <;> simp [Tag.key, strings.SplitN2, strings.cut, strings.HasPrefix]

theorem fillQueueLine_file {F : Type} (fl : Float32Lib F) (u : Str) (s : song F)
    (q : List (song F)) :
    fillQueueLine fl ("file: ".toList ++ u) s q =
      ({ (if s.uri.length > 0 then song.zero fl else s) with uri := u },
        if s.uri.length > 0 then q ++ [s] else q, none) := by
  unfold fillQueueLine
  rw [SplitN2_file]
  rfl

theorem fillQueueLine_Id {F : Type} (fl : Float32Lib F) (v : Str) (n : Int) (s : song F)
    (q : List (song F)) (h : validInt v = some n) :
    fillQueueLine fl (Tag.Id.key ++ ": ".toList ++ v) s q = ({ s with songID := n }, q, none) := by
  unfold fillQueueLine
  rw [SplitN2_tag Tag.Id v]
  have := Atoi_of_validInt v n h
  simp [Tag.key, this]

theorem fillQueueLine_Track {F : Type} (fl : Float32Lib F) (v : Str) (n : Int) (s : song F)
    (q : List (song F)) (h : validInt v = some n) :
    fillQueueLine fl (Tag.Track.key ++ ": ".toList ++ v) s q =
      ({ s with track := some n }, q, none) := by
  unfold fillQueueLine
  rw [SplitN2_tag Tag.Track v]
  have := Atoi_of_validInt v n h
  simp [Tag.key, this]

theorem fillQueueLine_Title {F : Type} (fl : Float32Lib F) (v : Str) (s : song F)
    (q : List (song F)) :
    fillQueueLine fl (Tag.Title.key ++ ": ".toList ++ v) s q =
      ({ s with title := v }, q, none) := by
  unfold fillQueueLine
  rw [SplitN2_tag Tag.Title v]
  simp [Tag.key]

theorem fillQueueLine_Artist {F : Type} (fl : Float32Lib F) (v : Str) (s : song F)
    (q : List (song F)) :
    fillQueueLine fl (Tag.Artist.key ++ ": ".toList ++ v) s q =
      ({ s with artist := v }, q, none) := by
  unfold fillQueueLine
  rw [SplitN2_tag Tag.Artist v]
  simp [Tag.key]

theorem fillQueueLine_Album {F : Type} (fl : Float32Lib F) (v : Str) (s : song F)
    (q : List (song F)) :
    fillQueueLine fl (Tag.Album.key ++ ": ".toList ++ v) s q =
      ({ s with album := v }, q, none) := by
  unfold fillQueueLine
  rw [SplitN2_tag Tag.Album v]
  simp [Tag.key]

theorem fillQueueLine_empty {F : Type} (fl : Float32Lib F) (s : song F) (q : List (song F)) :
    fillQueueLine fl [] s q = (s, q, none) := by
  rfl


theorem splitAux_line (l rest : Str) (h : '\n' ∉ l) :
    strings.splitAux '\n' (l ++ '\n' :: rest) = (l, strings.Split rest '\n') := by
  induction l with
  | nil => simp [strings.splitAux, strings.Split]
  | cons c cs ih =>
    have hc : c ≠ '\n' := fun e => h (by simp [e])
    have hcs : '\n' ∉ cs := fun e => h (List.mem_cons_of_mem _ e)
    rw [List.cons_append, strings.splitAux, if_neg hc, ih hcs]

theorem Split_line (l rest : Str) (h : '\n' ∉ l) :
    strings.Split (l ++ '\n' :: rest) '\n' = l :: strings.Split rest '\n' := by
  rw [strings.Split, splitAux_line l rest h]

theorem Split_lines (bodies : List Str) (rest : Str) (h : ∀ b ∈ bodies, '\n' ∉ b) :
    strings.Split ((bodies.map (· ++ "\n".toList)).flatten ++ rest) '\n' =
      bodies ++ strings.Split rest '\n' := by
  induction bodies with
  | nil => rfl
  | cons b bs ih =>
    have e : ((b :: bs).map (· ++ "\n".toList)).flatten ++ rest =
        b ++ '\n' :: ((bs.map (· ++ "\n".toList)).flatten ++ rest) := by
      simp
    rw [e, Split_line _ _ (h b (List.mem_cons_self _ _)),
      ih (fun b hb => h b (List.mem_cons_of_mem _ hb))]
    rfl

theorem fillQueueLoop_append {F : Type} (fl : Float32Lib F) (l1 l2 : List Str) (s : song F)
    (q : List (song F)) :
    fillQueueLoop fl (l1 ++ l2) s q =
      match fillQueueLoop fl l1 s q with
      | (s1, q1, some e) => (s1, q1, some e)
      | (s1, q1, none) => fillQueueLoop fl l2 s1 q1 := by
  induction l1 generalizing s q with
  | nil => rfl
  | cons line rest ih =>
    rw [List.cons_append, fillQueueLoop]
    conv_rhs => rw [fillQueueLoop]
    generalize fillQueueLine fl line s q = r
    obtain ⟨s1, q1, e⟩ := r
    cases e with
    | some e => rfl
    | none => exact ih s1 q1

theorem Block.last_snoc (u : Str) (p : List (Tag × Str)) (kv : Tag × Str) (k : Tag) :
    Block.last { uri := u, lines := p ++ [kv] } k =
      if kv.1 = k then some kv.2 else Block.last { uri := u, lines := p } k := by
  unfold Block.last
  simp only [List.filter_append, List.filter_cons, List.filter_nil]
  by_cases h : kv.1 = k
  · simp [h]
  · simp [h]

theorem fillQueueLine_tagged {F : Type} (fl : Float32Lib F) (u : Str) (p : List (Tag × Str))
    (kv : Tag × Str) (q : List (song F))
    (hv : (kv.1 = Tag.Id ∨ kv.1 = Tag.Track) → (validInt kv.2).isSome = true) :
    fillQueueLine fl (kv.1.key ++ ": ".toList ++ kv.2)
        (Block.track fl { uri := u, lines := p }) q =
      (Block.track fl { uri := u, lines := p ++ [kv] }, q, none) := by
  obtain ⟨k, v⟩ := kv
  cases k with
  | Id =>
    obtain ⟨n, hn⟩ := Option.isSome_iff_exists.1 (hv (Or.inl rfl))
    rw [fillQueueLine_Id fl v n _ q hn]
    simp [Block.track, Block.last_snoc, hn]
  | Track =>
    obtain ⟨n, hn⟩ := Option.isSome_iff_exists.1 (hv (Or.inr rfl))
    rw [fillQueueLine_Track fl v n _ q hn]
    simp [Block.track, Block.last_snoc, hn]
  | Title =>
    rw [fillQueueLine_Title fl v _ q]
    simp [Block.track, Block.last_snoc]
  | Artist =>
    rw [fillQueueLine_Artist fl v _ q]
    simp [Block.track, Block.last_snoc]
  | Album =>
    rw [fillQueueLine_Album fl v _ q]
    simp [Block.track, Block.last_snoc]

theorem fillQueueLoop_tagged {F : Type} (fl : Float32Lib F) (u : Str)
    (more p : List (Tag × Str)) (rest : List Str) (q : List (song F))
    (hv : ∀ kv ∈ more, (kv.1 = Tag.Id ∨ kv.1 = Tag.Track) → (validInt kv.2).isSome = true) :
    fillQueueLoop fl (more.map (fun kv => kv.1.key ++ ": ".toList ++ kv.2) ++ rest)
        (Block.track fl { uri := u, lines := p }) q =
      fillQueueLoop fl rest (Block.track fl { uri := u, lines := p ++ more }) q := by
  induction more generalizing p with
  | nil => simp
  | cons kv more ih =>
    rw [List.map_cons, List.cons_append, fillQueueLoop,
      fillQueueLine_tagged fl u p kv q (hv kv (List.mem_cons_self _ _))]
    simp only
    rw [ih (p ++ [kv]) (fun kv hkv => hv kv (List.mem_cons_of_mem _ hkv))]
    simp


theorem Block.track_nil {F : Type} (fl : Float32Lib F) (u : Str) :
    Block.track fl { uri := u, lines := [] } = { song.zero fl with uri := u } := by
  simp [Block.track, Block.last, song.zero]

theorem Tag.key_no_newline (t : Tag) : '\n' ∉ t.key := by
  cases t <;> decide

theorem Block.bodies_no_newline (b : Block) (h : b.wellFormed) :
    ∀ body ∈ b.bodies, '\n' ∉ body := by
  obtain ⟨_, hu, hl⟩ := h
  intro body hb
  unfold Block.bodies at hb
  rcases List.mem_cons.1 hb with rfl | hb
  · intro hm
    rcases List.mem_append.1 hm with hm | hm
    · revert hm; decide
    · exact hu hm
  · obtain ⟨kv, hkv, rfl⟩ := List.mem_map.1 hb
    intro hm
    rcases List.mem_append.1 hm with hm | hm
    · rcases List.mem_append.1 hm with hm | hm
      · exact Tag.key_no_newline _ hm
      · revert hm; decide
    · exact (hl kv hkv).1 hm

theorem fillQueueLoop_blocks {F : Type} (fl : Float32Lib F) (blocks : List Block)
    (s : song F) (q : List (song F)) (h : ∀ b ∈ blocks, b.wellFormed)
    (hs : s = song.zero fl ∨ s.uri ≠ []) :
    ∃ s1 q1, fillQueueLoop fl (blocks.flatMap Block.bodies ++ [[]]) s q = (s1, q1, none) ∧
      (if s1.uri.length > 0 then q1 ++ [s1] else q1) =
        (if s.uri.length > 0 then q ++ [s] else q) ++ blocks.map (Block.track fl) := by
  induction blocks generalizing s q with
  | nil => exact ⟨s, q, rfl, by simp⟩
  | cons b bs ih =>
    have hb := h b (List.mem_cons_self _ _)
    have hs1 : { (if s.uri.length > 0 then song.zero fl else s) with uri := b.uri } =
        Block.track fl { uri := b.uri, lines := [] } := by
      rw [Block.track_nil]
      rcases hs with rfl | hne
      · simp
      · have : s.uri.length > 0 := List.length_pos.2 hne
        simp [this]
    have hu : (Block.track fl b).uri.length > 0 := List.length_pos.2 hb.1
    obtain ⟨s1, q1, h1, h2⟩ := ih (Block.track fl b) (if s.uri.length > 0 then q ++ [s] else q)
      (fun b hb => h b (List.mem_cons_of_mem _ hb)) (Or.inr hb.1)
    refine ⟨s1, q1, ?_, ?_⟩
    · have e : (b :: bs).flatMap Block.bodies ++ [[]] =
          ("file: ".toList ++ b.uri) ::
            (b.lines.map (fun kv => kv.1.key ++ ": ".toList ++ kv.2) ++
              (bs.flatMap Block.bodies ++ [[]])) := by
        simp [List.flatMap_cons, Block.bodies]
      rw [e, fillQueueLoop, fillQueueLine_file, hs1]
      simp only
      rw [fillQueueLoop_tagged fl b.uri b.lines [] _ _ (fun kv hkv => (hb.2.2 kv hkv).2)]
      exact h1
    · rw [h2, if_pos hu]
      simp

/-- C1: on a listing that is a concatenation of well-formed track blocks
(a line `file: u` with `u` non-empty, then lines with the keys Id, Title,
Artist, Album or Track, the Id and Track values being valid decimal
integers) the line scan of `fillQueue` succeeds and appends to the queue one
track per block, in block order, whose uri is `u` and whose other fields are
the value of the last line with their key in the block, or unset when the
block has no such line. -/
theorem fillQueueScan_blocks {F : Type} (fl : Float32Lib F) (blocks : List Block)
    (st : state F) (h : ∀ b ∈ blocks, b.wellFormed) :
    fillQueueScan fl (renderListing blocks) st =
      ({ st with queue := st.queue ++ blocks.map (Block.track fl) }, none) := by
  have hnl : ∀ body ∈ blocks.flatMap Block.bodies, '\n' ∉ body := by
    intro body hb
    obtain ⟨b, hbm, hbb⟩ := List.mem_flatMap.1 hb
    exact Block.bodies_no_newline b (h b hbm) body hbb
  have hsplit : strings.Split (renderListing blocks) '\n' =
      blocks.flatMap Block.bodies ++ [[]] := by
    have := Split_lines (blocks.flatMap Block.bodies) [] hnl
    rw [List.append_nil] at this
    exact this
  obtain ⟨s1, q1, h1, h2⟩ := fillQueueLoop_blocks fl blocks (song.zero fl) st.queue h (Or.inl rfl)
  unfold fillQueueScan
  rw [hsplit, h1]
  simp only
  rw [h2]
  rfl

/-- The hypothesis of `fillQueueScan_blocks` at the listing
`file: a.mp3\nId: 1\nTitle: X\nfile: b.mp3\nId: 2\n`, with the two tracks it
yields. -/
theorem fillQueueScan_blocks_witness :
    renderListing
        [{ uri := "a.mp3".toList, lines := [(Tag.Id, "1".toList), (Tag.Title, "X".toList)] },
          { uri := "b.mp3".toList, lines := [(Tag.Id, "2".toList)] }] =
      "file: a.mp3\nId: 1\nTitle: X\nfile: b.mp3\nId: 2\n".toList ∧
    fillQueueScan unitFloat "file: a.mp3\nId: 1\nTitle: X\nfile: b.mp3\nId: 2\n".toList
        state.zero =
      ({ mpdState := mpdState.playMPDState, elapsed := none, songID := none,
          queue :=
            [{ uri := "a.mp3".toList, songID := 1, duration := (), title := "X".toList,
                artist := [], album := [], track := none },
              { uri := "b.mp3".toList, songID := 2, duration := (), title := [],
                artist := [], album := [], track := none }],
          highlighted := 0 }, none) :=
  ⟨by decide,
    fillQueueScan_blocks unitFloat
      [{ uri := "a.mp3".toList, lines := [(Tag.Id, "1".toList), (Tag.Title, "X".toList)] },
        { uri := "b.mp3".toList, lines := [(Tag.Id, "2".toList)] }]
      state.zero (by decide)⟩


theorem fillQueueLine_bare_file {F : Type} (fl : Float32Lib F) (s : song F)
    (q : List (song F)) :
    (fillQueueLine fl "file".toList s q).2.2 =
      some (Err.text "encountered epmty URI".toList) := by
  rfl

theorem fillQueueLoop_bare_file {F : Type} (fl : Float32Lib F) (lines : List Str)
    (s : song F) (q : List (song F)) (h : "file".toList ∈ lines) :
    (fillQueueLoop fl lines s q).2.2 ≠ none := by
  induction lines generalizing s q with
  | nil => exact absurd h (List.not_mem_nil _)
  | cons line rest ih =>
    rw [fillQueueLoop]
    rcases List.mem_cons.1 h with rfl | hrest
    · have := fillQueueLine_bare_file fl s q
      generalize fillQueueLine fl "file".toList s q = r at this
      obtain ⟨s1, q1, e⟩ := r
      simp only at this
      subst this
      simp
    · generalize fillQueueLine fl line s q = r
      obtain ⟨s1, q1, e⟩ := r
      cases e with
      | some e => simp
      | none => exact ih s1 q1 hrest

/-- C5, as amended: a listing that has a line consisting of exactly `file`
(the key with no `: ` after it) makes the line scan of `fillQueue` return an
error. -/
theorem fillQueueScan_bare_file {F : Type} (fl : Float32Lib F) (info : Str) (st : state F)
    (h : "file".toList ∈ strings.Split info '\n') :
    (fillQueueScan fl info st).2 ≠ none := by
  have := fillQueueLoop_bare_file fl (strings.Split info '\n') (song.zero fl) st.queue h
  unfold fillQueueScan
  generalize fillQueueLoop fl (strings.Split info '\n') (song.zero fl) st.queue = r at this
  obtain ⟨s1, q1, e⟩ := r
  cases e with
  | some e => simp
  | none => exact absurd rfl this

/-- The hypothesis of `fillQueueScan_bare_file` at the listing
`file: a.mp3\nfile\n`. -/
theorem fillQueueScan_bare_file_witness :
    "file".toList ∈ strings.Split "file: a.mp3\nfile\n".toList '\n' ∧
    (fillQueueScan unitFloat "file: a.mp3\nfile\n".toList state.zero).2 ≠ none :=
  ⟨by decide, fillQueueScan_bare_file unitFloat _ _ (by decide)⟩

/-- C5, as stated, fails: the listing `file: a.mp3\nfile:\n` has a line that
is exactly `file:`, and the scan returns the queue with the track `a.mp3`
and no error. -/
theorem fillQueueScan_file_colon_ignored :
    "file:".toList ∈ strings.Split "file: a.mp3\nfile:\n".toList '\n' ∧
    fillQueueScan unitFloat "file: a.mp3\nfile:\n".toList state.zero =
      ({ mpdState := mpdState.playMPDState, elapsed := none, songID := none,
          queue :=
            [{ uri := "a.mp3".toList, songID := 0, duration := (), title := [],
                artist := [], album := [], track := none }],
          highlighted := 0 }, none) := by
  decide

/-- C6: what the code does on the listing `file: \nId: 7\nfile: b.mp3\n`,
whose first entry has an empty URI: the scan returns no error, the entry is
dropped, and its `Id` ends up on the track `b.mp3`. -/
theorem fillQueueScan_empty_uri_dropped :
    "file: ".toList ∈ strings.Split "file: \nId: 7\nfile: b.mp3\n".toList '\n' ∧
    fillQueueScan unitFloat "file: \nId: 7\nfile: b.mp3\n".toList state.zero =
      ({ mpdState := mpdState.playMPDState, elapsed := none, songID := none,
          queue :=
            [{ uri := "b.mp3".toList, songID := 7, duration := (), title := [],
                artist := [], album := [], track := none }],
          highlighted := 0 }, none) := by
  decide

/-! ## Snapshot build -/

theorem fillQueueScan_err {F : Type} (fl : Float32Lib F) (info : Str) (st : state F) :
    (fillQueueScan fl info st).2 = (fillQueueScan fl info state.zero).2 ∧
    (fillQueueScan fl info st).1 =
      { st with queue := st.queue ++ (fillQueueScan fl info state.zero).1.queue } := by
  unfold fillQueueScan
  rw [fillQueueLoop_queue fl _ _ st.queue]
  simp only [state.zero]
  generalize fillQueueLoop fl (strings.Split info '\n') (song.zero fl) [] = r
  obtain ⟨s1, q1, e⟩ := r
  cases e with
  | some e => simp
  | none =>
    simp only
    split_ifs <;> simp


theorem firstErr_single (x : Option Err) : firstErr [x] = x := by
  cases x <;> rfl

/-- C9, as amended: `getState` returns the error of the first step that
fails, in the order `status` command, PlaybackState parse, Elapsed parse,
SongID parse, `playlistinfo` command, queue parse, and no error when none
fails.  The snapshot it returns is not reset on failure: every field holds
what its step stored as soon as that step was reached, and its initial value
otherwise. -/
theorem getState_first_error {F : Type} (fl : Float32Lib F) (statusSess listSess : Session) :
    (getState fl statusSess listSess).2 =
      firstErr
        [(executeMPDCommand statusSess "status".toList).err,
          (getMPDState (executeMPDCommand statusSess "status".toList).resp).2,
          (getElapsed fl (executeMPDCommand statusSess "status".toList).resp).2,
          (getSongID (executeMPDCommand statusSess "status".toList).resp).2,
          (executeMPDCommand listSess "playlistinfo".toList).err,
          (fillQueueScan fl (executeMPDCommand listSess "playlistinfo".toList).resp
            state.zero).2] ∧
    (getState fl statusSess listSess).1 =
      { mpdState :=
          if (executeMPDCommand statusSess "status".toList).err = none then
            (getMPDState (executeMPDCommand statusSess "status".toList).resp).1
          else mpdState.playMPDState,
        elapsed :=
          if firstErr
              [(executeMPDCommand statusSess "status".toList).err,
                (getMPDState (executeMPDCommand statusSess "status".toList).resp).2] = none then
            (getElapsed fl (executeMPDCommand statusSess "status".toList).resp).1
          else none,
        songID :=
          if firstErr
              [(executeMPDCommand statusSess "status".toList).err,
                (getMPDState (executeMPDCommand statusSess "status".toList).resp).2,
                (getElapsed fl (executeMPDCommand statusSess "status".toList).resp).2] = none then
            (getSongID (executeMPDCommand statusSess "status".toList).resp).1
          else none,
        queue :=
          if firstErr
              [(executeMPDCommand statusSess "status".toList).err,
                (getMPDState (executeMPDCommand statusSess "status".toList).resp).2,
                (getElapsed fl (executeMPDCommand statusSess "status".toList).resp).2,
                (getSongID (executeMPDCommand statusSess "status".toList).resp).2,
                (executeMPDCommand listSess "playlistinfo".toList).err] = none then
            (fillQueueScan fl (executeMPDCommand listSess "playlistinfo".toList).resp
              state.zero).1.queue
          else [],
        highlighted := 0 } := by
  unfold getState fillQueue
  generalize executeMPDCommand statusSess "status".toList = A
  generalize executeMPDCommand listSess "playlistinfo".toList = B
  dsimp only
  generalize getMPDState A.resp = M
  generalize getElapsed fl A.resp = E
  generalize getSongID A.resp = S
  obtain ⟨m, em⟩ := M
  obtain ⟨el, ee⟩ := E
  obtain ⟨sid, es⟩ := S
  cases h1 : A.err with
  | some e => exact ⟨rfl, rfl⟩
  | none =>
    cases em with
    | some e => exact ⟨rfl, rfl⟩
    | none =>
      cases ee with
      | some e => exact ⟨rfl, rfl⟩
      | none =>
        cases es with
        | some e => exact ⟨rfl, rfl⟩
        | none =>
          cases h5 : B.err with
          | some e => exact ⟨rfl, rfl⟩
          | none =>
            obtain ⟨e1, e2⟩ := fillQueueScan_err fl B.resp
              { (state.zero : state F) with mpdState := m, elapsed := el, songID := sid }
            constructor
            · simp only [firstErr]
              rw [firstErr_single]
              exact e1
            · show (fillQueueScan fl B.resp
                  { (state.zero : state F) with mpdState := m, elapsed := el, songID := sid }).1 = _
              rw [e2]
              simp [state.zero, firstErr]

/-- C9, as stated, fails: with the status `state: pause\nsongid: 4\n` and the
listing `file: a.mp3\nfile: b.mp3\nId: x\n`, `getState` returns the error of
the queue parse together with a snapshot that already holds the playback
state, the song id and the track `a.mp3`. -/
theorem getState_returns_partial_snapshot :
    getState unitFloat (sessionReplying "state: pause\nsongid: 4\nOK\n".toList)
        (sessionReplying "file: a.mp3\nfile: b.mp3\nId: x\nOK\n".toList) =
      ({ mpdState := mpdState.pauseMPDState, elapsed := none, songID := some 4,
          queue :=
            [{ uri := "a.mp3".toList, songID := 0, duration := (), title := [],
                artist := [], album := [], track := none }],
          highlighted := 0 },
        some (Err.wrap "could not parse songid: ".toList
          (Err.num "Atoi".toList "x".toList false))) := by
  decide


/-! ## Command façade -/

theorem wrap64_of_range (x : Int) (h1 : -(2 ^ 63 : Int) ≤ x) (h2 : x < 2 ^ 63) :
    wrap64 x = x := by
  unfold wrap64
  have h63 : (2 : Int) ^ 63 = 9223372036854775808 := by norm_num
  have h64 : (2 : Int) ^ 64 = 18446744073709551616 := by norm_num
  rw [h63] at h1 h2 ⊢
  rw [h64]
  omega

/-- C11: what the code does on the queue of two tracks with the cursor at 1
(move up) and at 0 (move down): the command handed to the executor ends
with a newline, and the bytes written to the connection are the command line
followed by two newlines. -/
theorem move_command_has_embedded_newline :
    (moveHighlightedUpwards (sessionReplying "OK\n".toList) (sampleState [5, 6] 1)).2.2 =
      some { command := "move 1 0\n".toList,
             result := { resp := [], err := none,
                         conn := some { written := "move 1 0\n\n".toList, closed := true } } } ∧
    (moveHighlightedDownwards (sessionReplying "OK\n".toList) (sampleState [5, 6] 0)).2.2 =
      some { command := "move 0 1\n".toList,
             result := { resp := [], err := none,
                         conn := some { written := "move 0 1\n\n".toList, closed := true } } } ∧
    '\n' ∈ "move 1 0\n".toList ∧ "move 1 0\n\n".toList ≠ "move 1 0".toList ++ "\n".toList := by
  decide

/-- C12, as amended: with the cursor at 0 `moveHighlightedUpwards` makes no
call of the executor, returns no error and returns the state as it was; with
the cursor at the last index, or with an empty queue and a cursor that is
not negative, so does `moveHighlightedDownwards`. -/
theorem move_noop_at_boundaries {F : Type} (sess : Session) (st : state F) :
    (st.highlighted = 0 → moveHighlightedUpwards sess st = (st, none, none)) ∧
    ((st.highlighted = (st.queue.length : Int) - 1 ∨ (st.queue = [] ∧ 0 ≤ st.highlighted)) →
      moveHighlightedDownwards sess st = (st, none, none)) := by
  constructor
  · intro h
    unfold moveHighlightedUpwards
    rw [if_pos h]
  · intro h
    unfold moveHighlightedDownwards
    have hge : st.highlighted ≥ (st.queue.length : Int) - 1 := by
      rcases h with h | ⟨hq, h0⟩
      · omega
      · rw [hq]
        simp only [List.length_nil, Nat.cast_zero]
        omega
    rw [if_pos hge]

/-- The hypotheses of `move_noop_at_boundaries` on a queue of two tracks,
with the cursor at 0 for the move up and at 1 for the move down. -/
theorem move_noop_at_boundaries_witness :
    moveHighlightedUpwards (sessionReplying "OK\n".toList) (sampleState [5, 6] 0) =
      (sampleState [5, 6] 0, none, none) ∧
    moveHighlightedDownwards (sessionReplying "OK\n".toList) (sampleState [5, 6] 1) =
      (sampleState [5, 6] 1, none, none) ∧
    moveHighlightedDownwards (sessionReplying "OK\n".toList) (sampleState [] 0) =
      (sampleState [] 0, none, none) :=
  ⟨(move_noop_at_boundaries (sessionReplying "OK\n".toList) (sampleState [5, 6] 0)).1 rfl,
    (move_noop_at_boundaries (sessionReplying "OK\n".toList) (sampleState [5, 6] 1)).2
      (Or.inl (by decide)),
    (move_noop_at_boundaries (sessionReplying "OK\n".toList) (sampleState [] 0)).2
      (Or.inr (by decide))⟩

/-- C12, as stated, fails: with an empty queue and the cursor at -5 the
guard `highlighted >= len(queue)-1` does not hold, and
`moveHighlightedDownwards` hands the executor a move command and moves the
cursor to -4. -/
theorem moveHighlightedDownwards_empty_queue_negative_cursor :
    (sampleState [] (-5)).queue = [] ∧
    (moveHighlightedDownwards (sessionReplying "OK\n".toList)
      (sampleState [] (-5))).1.highlighted = -4 ∧
    (moveHighlightedDownwards (sessionReplying "OK\n".toList)
      (sampleState [] (-5))).2.2.map (fun c => c.command) = some "move -5 -4\n".toList ∧
    moveHighlightedDownwards (sessionReplying "OK\n".toList) (sampleState [] (-5)) ≠
      (sampleState [] (-5), none, none) := by
  decide

/-- C13: `seekForwards` hands the executor the command `seekcur +<seconds>`;
it returns no error when the command succeeds and when it fails with an
error whose text contains `Decoder failed to seek`, and returns the error of
the command unchanged when its text does not contain that. -/
theorem seekForwards_accommodation (quote : Str → Str) (sess : Session) (seconds : Int) :
    (seekForwards quote sess seconds).2 =
      some { command := "seekcur +".toList ++ fmt.decimal seconds,
             result := executeMPDCommand sess ("seekcur +".toList ++ fmt.decimal seconds) } ∧
    ((executeMPDCommand sess ("seekcur +".toList ++ fmt.decimal seconds)).err = none →
      (seekForwards quote sess seconds).1 = none) ∧
    (∀ e, (executeMPDCommand sess ("seekcur +".toList ++ fmt.decimal seconds)).err = some e →
      strings.Contains (e.Error quote) "Decoder failed to seek".toList = true →
      (seekForwards quote sess seconds).1 = none) ∧
    (∀ e, (executeMPDCommand sess ("seekcur +".toList ++ fmt.decimal seconds)).err = some e →
      strings.Contains (e.Error quote) "Decoder failed to seek".toList = false →
      (seekForwards quote sess seconds).1 = some e) := by
  unfold seekForwards
  generalize executeMPDCommand sess ("seekcur +".toList ++ fmt.decimal seconds) = r
  cases he : r.err with
  | none =>
    refine ⟨rfl, fun _ => rfl, ?_, ?_⟩
    · intro e h
      exact absurd h (by simp)
    · intro e h
      exact absurd h (by simp)
  | some e =>
    simp only
    by_cases hc : strings.Contains (e.Error quote) "Decoder failed to seek".toList = true
    · rw [if_pos hc]
      refine ⟨rfl, fun _ => rfl, fun _ _ _ => rfl, ?_⟩
      intro e2 h2 hc2
      cases Option.some.inj h2
      rw [hc] at hc2
      exact absurd hc2 (by simp)
    · rw [if_neg hc]
      refine ⟨rfl, ?_, ?_, ?_⟩
      · intro h
        exact absurd h (by simp)
      · intro e2 h2 hc2
        cases Option.some.inj h2
        exact absurd hc2 hc
      · intro e2 h2 _
        cases Option.some.inj h2
        rfl

/-- The hypotheses of `seekForwards_accommodation` at a server that answers
`ACK [2@0] Decoder failed to seek`, where the call succeeds, and at one that
answers `ACK [50@0] No such song`, where the error is returned. -/
theorem seekForwards_accommodation_witness :
    (seekForwards id (sessionReplying "ACK [2@0] Decoder failed to seek\n".toList) 5).1 = none ∧
    (seekForwards id (sessionReplying "ACK [50@0] No such song\n".toList) 5).1 =
      some (Err.text "received mpd error ACK [50@0] No such song\n".toList) :=
  ⟨(seekForwards_accommodation id
      (sessionReplying "ACK [2@0] Decoder failed to seek\n".toList) 5).2.2.1
      (Err.text "received mpd error ACK [2@0] Decoder failed to seek\n".toList)
      (by decide) (by decide),
    (seekForwards_accommodation id
      (sessionReplying "ACK [50@0] No such song\n".toList) 5).2.2.2
      (Err.text "received mpd error ACK [50@0] No such song\n".toList)
      (by decide) (by decide)⟩


theorem index_in_bounds {α : Type} (xs : List α) (i : Int) (h0 : 0 ≤ i)
    (h1 : i < (xs.length : Int)) :
    ∃ x, xs[i.toNat]? = some x ∧ index xs i = some x := by
  have hlt : i.toNat < xs.length := by omega
  refine ⟨xs[i.toNat], List.getElem?_eq_getElem hlt, ?_⟩
  unfold index
  rw [if_pos h0, List.getElem?_eq_getElem hlt]

/-- C14: with an empty queue `playHighlighted` and `deleteHighlighted` make
no call of the executor and return no error; with a cursor inside the queue
the index access does not panic, and each makes exactly one call, with the
command `playid <id>`, respectively `deleteid <id>`, for the track id of the
highlighted track, and returns the error of that call. -/
theorem play_delete_highlighted {F : Type} (sess : Session) (st : state F) :
    (st.queue = [] →
      playHighlighted sess st = some (none, none) ∧
      deleteHighlighted sess st = some (none, none)) ∧
    (0 ≤ st.highlighted ∧ st.highlighted < (st.queue.length : Int) →
      ∃ song, st.queue[st.highlighted.toNat]? = some song ∧
        playHighlighted sess st =
          some ((executeMPDCommand sess ("playid ".toList ++ fmt.decimal song.songID)).err,
            some { command := "playid ".toList ++ fmt.decimal song.songID,
                   result :=
                     executeMPDCommand sess ("playid ".toList ++ fmt.decimal song.songID) }) ∧
        deleteHighlighted sess st =
          some ((executeMPDCommand sess ("deleteid ".toList ++ fmt.decimal song.songID)).err,
            some { command := "deleteid ".toList ++ fmt.decimal song.songID,
                   result :=
                     executeMPDCommand sess
                       ("deleteid ".toList ++ fmt.decimal song.songID) })) := by
  constructor
  · intro hq
    unfold playHighlighted deleteHighlighted
    rw [hq]
    exact ⟨rfl, rfl⟩
  · rintro ⟨h0, h1⟩
    obtain ⟨song, hs, hi⟩ := index_in_bounds st.queue st.highlighted h0 h1
    have hne : ¬ st.queue.length = 0 := by omega
    refine ⟨song, hs, ?_, ?_⟩
    · unfold playHighlighted
      rw [if_neg hne, hi]
    · unfold deleteHighlighted
      rw [if_neg hne, hi]

/-- The hypotheses of `play_delete_highlighted` on the queue of the tracks
with ids 5 and 6 and the cursor at 1: the commands are `playid 6` and
`deleteid 6`. -/
theorem play_delete_highlighted_witness :
    (playHighlighted (sessionReplying "OK\n".toList) (sampleState [5, 6] 1)).map
        (fun r => r.2.map (fun c => c.command)) = some (some "playid 6".toList) ∧
    (deleteHighlighted (sessionReplying "OK\n".toList) (sampleState [5, 6] 1)).map
        (fun r => r.2.map (fun c => c.command)) = some (some "deleteid 6".toList) ∧
    playHighlighted (sessionReplying "OK\n".toList) (sampleState [] 0) = some (none, none) := by
  obtain ⟨song, hs, hp, hd⟩ :=
    (play_delete_highlighted (sessionReplying "OK\n".toList) (sampleState [5, 6] 1)).2
      (by decide)
  have hid : song.songID = 6 := by
    have : (sampleState [5, 6] 1).queue[(sampleState [5, 6] 1).highlighted.toNat]?.map
        (fun t => t.songID) = some 6 := by decide
    rw [hs] at this
    exact Option.some.inj this
  rw [hid] at hp hd
  refine ⟨?_, ?_, ?_⟩
  · rw [hp]; rfl
  · rw [hd]; rfl
  · exact ((play_delete_highlighted (sessionReplying "OK\n".toList) (sampleState [] 0)).1
      rfl).1

/-- C15: whenever `executeMPDCommand` has established a connection (the
dial succeeded), the connection is closed when the call returns, whether the
greeting is rejected, the stream ends, or the reply ends in `OK` or `ACK`. -/
theorem executeMPDCommand_closes (sess : Session) (command : Str)
    (hdial : sess.dialErr = none) :
    ∃ c, (executeMPDCommand sess command).conn = some c ∧ c.closed = true := by
  unfold executeMPDCommand initiateMPDConnection
  rw [hdial]
  simp only
  generalize bufio.ReadString '\n' sess.greeting = g
  obtain ⟨line, rest⟩ := g
  cases rest with
  | none => exact ⟨_, rfl, rfl⟩
  | some rest =>
    simp only
    cases hp : strings.HasPrefix line "OK MPD ".toList
    · exact ⟨_, rfl, rfl⟩
    · exact ⟨_, rfl, rfl⟩

/-- The hypothesis of `executeMPDCommand_closes` at a session whose greeting
is rejected, with the state of the connection after the call. -/
theorem executeMPDCommand_closes_witness :
    ∃ c, (executeMPDCommand
        { dialErr := none, greeting := "hello\n".toList, reply := [],
          readErr := Err.transport "EOF".toList } "status".toList).conn = some c ∧
      c.closed = true :=
  executeMPDCommand_closes _ _ rfl


theorem moveHighlightedUpwards_at_top {F : Type} (sess : Session) (st : state F)
    (h : st.highlighted = 0) : moveHighlightedUpwards sess st = (st, none, none) := by
  unfold moveHighlightedUpwards
  rw [if_pos h]

theorem moveHighlightedDownwards_at_bottom {F : Type} (sess : Session) (st : state F)
    (h : st.highlighted ≥ (st.queue.length : Int) - 1) :
    moveHighlightedDownwards sess st = (st, none, none) := by
  unfold moveHighlightedDownwards
  rw [if_pos h]

theorem moveHighlightedUpwards_moved {F : Type} (sess : Session) (st : state F)
    (hrep : st.representable) (h : st.highlighted ≠ 0) (hlo : -(2 ^ 63 : Int) < st.highlighted) :
    (moveHighlightedUpwards sess st).1 = { st with highlighted := st.highlighted - 1 } := by
  unfold moveHighlightedUpwards
  rw [if_neg h]
  simp only
  rw [wrap64_of_range _ (by omega) (by have := hrep.2.1; omega)]

theorem moveHighlightedDownwards_moved {F : Type} (sess : Session) (st : state F)
    (hrep : st.representable) (h : st.highlighted < (st.queue.length : Int) - 1) :
    (moveHighlightedDownwards sess st).1 = { st with highlighted := st.highlighted + 1 } := by
  unfold moveHighlightedDownwards
  rw [if_neg (by omega)]
  simp only
  obtain ⟨h1, _, h3⟩ := hrep
  rw [wrap64_of_range _ (by omega) (by omega)]

/-- C17: for a state the program can hold and whatever the server does on
the connection, `moveHighlightedUpwards` with the cursor `h > 0` leaves the
cursor at `h - 1` and the queue as it was, and `moveHighlightedDownwards`
with `h < len(queue) - 1` leaves the cursor at `h + 1` and the queue as it
was; the error of the command is returned next to the state that has
already moved. -/
theorem move_updates_cursor_first {F : Type} (sess : Session) (st : state F)
    (hrep : st.representable) :
    (0 < st.highlighted →
      (moveHighlightedUpwards sess st).1.highlighted = st.highlighted - 1 ∧
      (moveHighlightedUpwards sess st).1.queue = st.queue ∧
      ∃ c, (moveHighlightedUpwards sess st).2.2 = some c ∧
        (moveHighlightedUpwards sess st).2.1 = c.result.err) ∧
    (st.highlighted < (st.queue.length : Int) - 1 →
      (moveHighlightedDownwards sess st).1.highlighted = st.highlighted + 1 ∧
      (moveHighlightedDownwards sess st).1.queue = st.queue ∧
      ∃ c, (moveHighlightedDownwards sess st).2.2 = some c ∧
        (moveHighlightedDownwards sess st).2.1 = c.result.err) := by
  constructor
  · intro h
    rw [moveHighlightedUpwards_moved sess st hrep (by omega) (by omega)]
    refine ⟨rfl, rfl, ?_⟩
    unfold moveHighlightedUpwards
    rw [if_neg (by omega)]
    exact ⟨_, rfl, rfl⟩
  · intro h
    rw [moveHighlightedDownwards_moved sess st hrep h]
    refine ⟨rfl, rfl, ?_⟩
    unfold moveHighlightedDownwards
    rw [if_neg (by omega)]
    exact ⟨_, rfl, rfl⟩

/-- The hypotheses of `move_updates_cursor_first` on a queue of three tracks
with the cursor at 1, against a server that answers `ACK`: the command
fails and the cursor has moved all the same. -/
theorem move_updates_cursor_first_witness :
    (moveHighlightedUpwards (sessionReplying "ACK [2@0] Bad song index\n".toList)
        (sampleState [5, 6, 7] 1)).1.highlighted = 0 ∧
    (moveHighlightedUpwards (sessionReplying "ACK [2@0] Bad song index\n".toList)
        (sampleState [5, 6, 7] 1)).2.1 ≠ none ∧
    (moveHighlightedDownwards (sessionReplying "ACK [2@0] Bad song index\n".toList)
        (sampleState [5, 6, 7] 1)).1.highlighted = 2 :=
  ⟨((move_updates_cursor_first (sessionReplying "ACK [2@0] Bad song index\n".toList)
      (sampleState [5, 6, 7] 1) (by decide)).1 (by decide)).1,
    by decide,
    ((move_updates_cursor_first (sessionReplying "ACK [2@0] Bad song index\n".toList)
      (sampleState [5, 6, 7] 1) (by decide)).2 (by decide)).1⟩

/-- C19: for a state the program can hold, with a non-empty queue and the
cursor inside it, after `moveHighlightedUpwards` and after
`moveHighlightedDownwards`, whatever the server does, the cursor is still
inside the queue, the queue is as it was, and the cursor has moved by at
most 1. -/
theorem move_keeps_cursor_in_bounds {F : Type} (sess : Session) (st : state F)
    (hrep : st.representable) (_hne : st.queue ≠ [])
    (hb : 0 ≤ st.highlighted ∧ st.highlighted < (st.queue.length : Int)) :
    (0 ≤ (moveHighlightedUpwards sess st).1.highlighted ∧
      (moveHighlightedUpwards sess st).1.highlighted <
        ((moveHighlightedUpwards sess st).1.queue.length : Int) ∧
      (moveHighlightedUpwards sess st).1.queue = st.queue ∧
      st.highlighted - 1 ≤ (moveHighlightedUpwards sess st).1.highlighted ∧
      (moveHighlightedUpwards sess st).1.highlighted ≤ st.highlighted + 1) ∧
    (0 ≤ (moveHighlightedDownwards sess st).1.highlighted ∧
      (moveHighlightedDownwards sess st).1.highlighted <
        ((moveHighlightedDownwards sess st).1.queue.length : Int) ∧
      (moveHighlightedDownwards sess st).1.queue = st.queue ∧
      st.highlighted - 1 ≤ (moveHighlightedDownwards sess st).1.highlighted ∧
      (moveHighlightedDownwards sess st).1.highlighted ≤ st.highlighted + 1) := by
  obtain ⟨h0, h1⟩ := hb
  constructor
  · by_cases hz : st.highlighted = 0
    · rw [moveHighlightedUpwards_at_top sess st hz]
      show 0 ≤ st.highlighted ∧ st.highlighted < (st.queue.length : Int) ∧ st.queue = st.queue ∧
        st.highlighted - 1 ≤ st.highlighted ∧ st.highlighted ≤ st.highlighted + 1
      exact ⟨h0, h1, rfl, by omega, by omega⟩
    · rw [moveHighlightedUpwards_moved sess st hrep hz (by omega)]
      show 0 ≤ st.highlighted - 1 ∧ st.highlighted - 1 < (st.queue.length : Int) ∧
        st.queue = st.queue ∧ st.highlighted - 1 ≤ st.highlighted - 1 ∧
        st.highlighted - 1 ≤ st.highlighted + 1
      exact ⟨by omega, by omega, rfl, by omega, by omega⟩
  · by_cases hl : st.highlighted ≥ (st.queue.length : Int) - 1
    · rw [moveHighlightedDownwards_at_bottom sess st hl]
      show 0 ≤ st.highlighted ∧ st.highlighted < (st.queue.length : Int) ∧ st.queue = st.queue ∧
        st.highlighted - 1 ≤ st.highlighted ∧ st.highlighted ≤ st.highlighted + 1
      exact ⟨h0, h1, rfl, by omega, by omega⟩
    · rw [moveHighlightedDownwards_moved sess st hrep (by omega)]
      show 0 ≤ st.highlighted + 1 ∧ st.highlighted + 1 < (st.queue.length : Int) ∧
        st.queue = st.queue ∧ st.highlighted - 1 ≤ st.highlighted + 1 ∧
        st.highlighted + 1 ≤ st.highlighted + 1
      exact ⟨by omega, by omega, rfl, by omega, by omega⟩

/-- The hypotheses of `move_keeps_cursor_in_bounds` on a queue of three
tracks with the cursor at 2. -/
theorem move_keeps_cursor_in_bounds_witness :
    (moveHighlightedUpwards (sessionReplying "OK\n".toList)
      (sampleState [5, 6, 7] 2)).1.queue = (sampleState [5, 6, 7] 2).queue ∧
    (moveHighlightedDownwards (sessionReplying "OK\n".toList)
      (sampleState [5, 6, 7] 2)).1.queue = (sampleState [5, 6, 7] 2).queue :=
  ⟨(move_keeps_cursor_in_bounds (sessionReplying "OK\n".toList) (sampleState [5, 6, 7] 2)
      (by decide) (by decide) (by decide)).1.2.2.1,
    (move_keeps_cursor_in_bounds (sessionReplying "OK\n".toList) (sampleState [5, 6, 7] 2)
      (by decide) (by decide) (by decide)).2.2.2.1⟩


/-! ## Queue parse: keys, order and multiplicity -/

theorem cut_some (sep s a b : Str) (h : strings.cut sep s = some (a, b)) :
    s = a ++ sep ++ b := by
  induction s generalizing a b with
  | nil => simp [strings.cut] at h
  | cons c cs ih =>
    rw [strings.cut] at h
    by_cases hp : strings.HasPrefix (c :: cs) sep = true
    · rw [if_pos hp] at h
      obtain ⟨t, ht⟩ := (HasPrefix_iff _ _).1 hp
      simp only [Option.some.injEq, Prod.mk.injEq] at h
      obtain ⟨rfl, rfl⟩ := h
      rw [ht]
      simp
    · rw [if_neg hp] at h
      cases hc : strings.cut sep cs with
      | none => rw [hc] at h; simp at h
      | some p =>
        obtain ⟨a1, b1⟩ := p
        rw [hc] at h
        simp only [Option.some.injEq, Prod.mk.injEq] at h
        obtain ⟨rfl, rfl⟩ := h
        rw [ih a1 b1 hc]
        simp

theorem SplitN2_cases (line sep : Str) :
    strings.SplitN2 line sep = [line] ∨
      ∃ a b, strings.SplitN2 line sep = [a, b] ∧ line = a ++ sep ++ b := by
  unfold strings.SplitN2
  cases hc : strings.cut sep line with
  | none => exact Or.inl rfl
  | some p =>
    obtain ⟨a, b⟩ := p
    exact Or.inr ⟨a, b, rfl, cut_some sep line a b hc⟩

theorem keyOf_file (line : Str) (h : keyOf line = "file".toList) :
    (strings.SplitN2 line ": ".toList = ["file".toList]) ∨
      ∃ v, line = "file: ".toList ++ v ∧
        strings.SplitN2 line ": ".toList = ["file".toList, v] := by
  unfold keyOf at h
  rcases SplitN2_cases line ": ".toList with h1 | ⟨a, b, h1, h2⟩
  · rw [h1] at h
    simp only [List.headD_cons] at h
    subst h
    exact Or.inl h1
  · rw [h1] at h
    simp only [List.headD_cons] at h
    subst h
    exact Or.inr ⟨b, by rw [h2]; simp, h1⟩

theorem fileValue_file (v : Str) : fileValue ("file: ".toList ++ v) = some v := by
  unfold fileValue
  rw [HasPrefix_append, if_pos rfl]
  simp

theorem fileValue_of_key_ne (line : Str) (h : keyOf line ≠ "file".toList) :
    fileValue line = none := by
  unfold fileValue
  by_cases hp : strings.HasPrefix line "file: ".toList = true
  · exfalso
    obtain ⟨v, rfl⟩ := (HasPrefix_iff _ _).1 hp
    apply h
    unfold keyOf
    rw [SplitN2_file]
    rfl
  · rw [if_neg hp]


theorem fillQueueLine_other {F : Type} (fl : Float32Lib F) (line : Str) (s : song F)
    (q : List (song F)) (h : keyOf line ≠ "file".toList) :
    (fillQueueLine fl line s q).1.uri = s.uri ∧ (fillQueueLine fl line s q).2.1 = q := by
  unfold keyOf at h
  unfold fillQueueLine
  dsimp only
  generalize strings.SplitN2 line ": ".toList = split at h ⊢
  generalize strconv.Atoi (split.getD 1 []) = a
  generalize fl.parse (split.getD 1 []) = f
  obtain ⟨i, e⟩ := a
  obtain ⟨x, e2⟩ := f
  rw [if_neg h]
  by_cases h2 : split.headD [] = "Id".toList
  · simp only [h2, if_true]
    cases e <;> split_ifs <;> exact ⟨rfl, rfl⟩
  rw [if_neg h2]
  by_cases h3 : split.headD [] = "duration".toList
  · simp only [h3, if_true]
    cases e2 <;> split_ifs <;> exact ⟨rfl, rfl⟩
  rw [if_neg h3]
  by_cases h4 : split.headD [] = "Title".toList
  · simp only [h4, if_true]
    split_ifs <;> exact ⟨rfl, rfl⟩
  rw [if_neg h4]
  by_cases h5 : split.headD [] = "Artist".toList
  · simp only [h5, if_true]
    split_ifs <;> exact ⟨rfl, rfl⟩
  rw [if_neg h5]
  by_cases h6 : split.headD [] = "Album".toList
  · simp only [h6, if_true]
    split_ifs <;> exact ⟨rfl, rfl⟩
  rw [if_neg h6]
  by_cases h7 : split.headD [] = "Track".toList
  · simp only [h7, if_true]
    cases e <;> split_ifs <;> exact ⟨rfl, rfl⟩
  rw [if_neg h7]
  exact ⟨rfl, rfl⟩

theorem fillQueueLine_unrecognised {F : Type} (fl : Float32Lib F) (line : Str) (s : song F)
    (q : List (song F)) (h : recognisedKey line = false) :
    fillQueueLine fl line s q = (s, q, none) := by
  unfold recognisedKey at h
  simp only [Bool.or_eq_false_iff, decide_eq_false_iff_not] at h
  obtain ⟨⟨⟨⟨⟨⟨h1, h2⟩, h3⟩, h4⟩, h5⟩, h6⟩, h7⟩ := h
  unfold keyOf at h1 h2 h3 h4 h5 h6 h7
  unfold fillQueueLine
  dsimp only
  rw [if_neg h1, if_neg h2, if_neg h3, if_neg h4, if_neg h5, if_neg h6, if_neg h7]

theorem fillQueueLoop_filter {F : Type} (fl : Float32Lib F) (lines : List Str) (s : song F)
    (q : List (song F)) :
    fillQueueLoop fl (lines.filter recognisedKey) s q = fillQueueLoop fl lines s q := by
  induction lines generalizing s q with
  | nil => rfl
  | cons line rest ih =>
    rw [List.filter_cons]
    cases hr : recognisedKey line with
    | true =>
      simp only [if_true]
      rw [fillQueueLoop, fillQueueLoop]
      generalize fillQueueLine fl line s q = r
      obtain ⟨s1, q1, e⟩ := r
      cases e with
      | some e => rfl
      | none => exact ih s1 q1
    | false =>
      simp only [Bool.false_eq_true, if_false]
      rw [ih]
      conv_rhs => rw [fillQueueLoop, fillQueueLine_unrecognised fl line s q hr]


theorem splitAux_no_sep (d : Char) (s : Str) :
    d ∉ (strings.splitAux d s).1 ∧ ∀ l ∈ (strings.splitAux d s).2, d ∉ l := by
  induction s with
  | nil => simp [strings.splitAux]
  | cons c cs ih =>
    rw [strings.splitAux]
    by_cases hc : c = d
    · rw [if_pos hc]
      refine ⟨List.not_mem_nil _, ?_⟩
      intro l hl
      rcases List.mem_cons.1 hl with rfl | hl
      · exact ih.1
      · exact ih.2 l hl
    · rw [if_neg hc]
      refine ⟨?_, ih.2⟩
      intro hm
      rcases List.mem_cons.1 hm with h | h
      · exact hc h.symm
      · exact ih.1 h

theorem Split_no_newline (s : Str) : ∀ l ∈ strings.Split s '\n', '\n' ∉ l := by
  intro l hl
  unfold strings.Split at hl
  rcases List.mem_cons.1 hl with rfl | hl
  · exact (splitAux_no_sep '\n' s).1
  · exact (splitAux_no_sep '\n' s).2 l hl

theorem Split_single (l : Str) (h : '\n' ∉ l) : strings.Split l '\n' = [l] := by
  have : strings.splitAux '\n' l = (l, []) := by
    induction l with
    | nil => rfl
    | cons c cs ih =>
      have hc : c ≠ '\n' := fun e => h (by simp [e])
      have hcs : '\n' ∉ cs := fun e => h (List.mem_cons_of_mem _ e)
      rw [strings.splitAux, if_neg hc, ih hcs]
  rw [strings.Split, this]

theorem Split_joinLines (ls : List Str) (h : ∀ l ∈ ls, '\n' ∉ l) (hne : ls ≠ []) :
    strings.Split (joinLines ls) '\n' = ls := by
  induction ls with
  | nil => exact absurd rfl hne
  | cons l rest ih =>
    cases rest with
    | nil => exact Split_single l (h l (List.mem_cons_self _ _))
    | cons l2 ls =>
      rw [joinLines, Split_line _ _ (h l (List.mem_cons_self _ _)),
        ih (fun x hx => h x (List.mem_cons_of_mem _ hx)) (List.cons_ne_nil _ _)]

/-- C18: the line scan of `fillQueue` gives the same result, queue or error,
on a listing and on the listing without the lines whose key (the text before
the first `: `) is not exactly one of file, Id, duration, Title, Artist,
Album, Track; the keys of the lines `title: X` and `id: 3` are not among
them. -/
theorem fillQueueScan_removeUnrecognised {F : Type} (fl : Float32Lib F) (info : Str)
    (st : state F) :
    fillQueueScan fl (removeUnrecognised info) st = fillQueueScan fl info st ∧
    recognisedKey "title: X".toList = false ∧ recognisedKey "id: 3".toList = false := by
  refine ⟨?_, by decide, by decide⟩
  have key : fillQueueLoop fl (strings.Split (removeUnrecognised info) '\n') (song.zero fl)
      st.queue = fillQueueLoop fl (strings.Split info '\n') (song.zero fl) st.queue := by
    rw [← fillQueueLoop_filter fl (strings.Split info '\n')]
    unfold removeUnrecognised
    by_cases hk : (strings.Split info '\n').filter recognisedKey = []
    · rw [hk]
      rfl
    · rw [Split_joinLines _ (fun l hl => Split_no_newline info l (List.mem_filter.1 hl).1) hk]
  unfold fillQueueScan
  rw [key]


theorem fillQueueLine_uris {F : Type} (fl : Float32Lib F) (line : Str) (s : song F)
    (q : List (song F)) (h : (fillQueueLine fl line s q).2.2 = none) :
    (fillQueueLine fl line s q).2.1.map (fun t => t.uri) ++
        (if (fillQueueLine fl line s q).1.uri = [] then []
          else [(fillQueueLine fl line s q).1.uri]) =
      (q.map (fun t => t.uri) ++ (if s.uri = [] then [] else [s.uri])) ++
        ((fileValue line).toList.filter (fun v => decide (v ≠ []))) := by
  by_cases hk : keyOf line = "file".toList
  · rcases keyOf_file line hk with h1 | ⟨v, rfl, _⟩
    · exfalso
      have : (fillQueueLine fl line s q).2.2 =
          some (Err.text "encountered epmty URI".toList) := by
        unfold fillQueueLine
        rw [h1]
        rfl
      rw [this] at h
      exact absurd h (by simp)
    · rw [fillQueueLine_file, fileValue_file]
      by_cases hs : s.uri = []
      · have hl : ¬ s.uri.length > 0 := by rw [hs]; simp
        by_cases hv : v = []
        · simp [hs, hv]
        · simp [hs, hv]
      · have hl : s.uri.length > 0 := List.length_pos.2 hs
        by_cases hv : v = []
        · simp [hs, hl, hv]
        · simp [hs, hl, hv]
  · obtain ⟨h1, h2⟩ := fillQueueLine_other fl line s q hk
    rw [h1, h2, fileValue_of_key_ne line hk]
    simp

theorem fileValues_cons (line : Str) (rest : List Str) :
    ((line :: rest).filterMap fileValue).filter (fun v => decide (v ≠ [])) =
      (fileValue line).toList.filter (fun v => decide (v ≠ [])) ++
        (rest.filterMap fileValue).filter (fun v => decide (v ≠ [])) := by
  cases hf : fileValue line with
  | none => simp [List.filterMap_cons, hf]
  | some v =>
    by_cases hv : v = []
    · simp [List.filterMap_cons, hf, List.filter_cons, hv]
    · simp [List.filterMap_cons, hf, List.filter_cons, hv]

theorem fillQueueLoop_uris {F : Type} (fl : Float32Lib F) (lines : List Str) (s : song F)
    (q : List (song F)) (h : (fillQueueLoop fl lines s q).2.2 = none) :
    (fillQueueLoop fl lines s q).2.1.map (fun t => t.uri) ++
        (if (fillQueueLoop fl lines s q).1.uri = [] then []
          else [(fillQueueLoop fl lines s q).1.uri]) =
      (q.map (fun t => t.uri) ++ (if s.uri = [] then [] else [s.uri])) ++
        ((lines.filterMap fileValue).filter (fun v => decide (v ≠ []))) := by
  induction lines generalizing s q with
  | nil => simp [fillQueueLoop]
  | cons line rest ih =>
    rw [fillQueueLoop] at h ⊢
    have hline := fillQueueLine_uris fl line s q
    generalize fillQueueLine fl line s q = r at h hline ⊢
    obtain ⟨s1, q1, e⟩ := r
    cases e with
    | some e => simp at h
    | none =>
      simp only at h ⊢
      rw [ih s1 q1 h, hline rfl, fileValues_cons, List.append_assoc]

/-- C16: when the line scan of `fillQueue` succeeds, the tracks it has
appended to the queue have, in order and in number, the non-empty values of
the lines whose key is exactly `file` as their uris; so every appended track
has a non-empty uri, and an empty listing appends nothing and gives no
error. -/
theorem fillQueueScan_uris {F : Type} (fl : Float32Lib F) (info : Str) (st : state F)
    (h : (fillQueueScan fl info st).2 = none) :
    (∃ added, (fillQueueScan fl info st).1.queue = st.queue ++ added ∧
      added.map (fun t => t.uri) = fileValues info ∧
      added.length = (fileValues info).length ∧
      ∀ t ∈ added, t.uri ≠ []) ∧
    fillQueueScan fl [] st = (st, none) := by
  refine ⟨?_, rfl⟩
  obtain ⟨e1, e2⟩ := fillQueueScan_err fl info st
  rw [e1] at h
  have hmap : (fillQueueScan fl info (state.zero : state F)).1.queue.map (fun t => t.uri) =
      fileValues info := by
    unfold fillQueueScan at h ⊢
    have hl := fillQueueLoop_uris fl (strings.Split info '\n') (song.zero fl)
      (state.zero : state F).queue
    generalize fillQueueLoop fl (strings.Split info '\n') (song.zero fl)
      (state.zero : state F).queue = r at h hl ⊢
    obtain ⟨s1, q1, e⟩ := r
    cases e with
    | some e => simp at h
    | none =>
      have hl2 := hl rfl
      simp only [state.zero, song.zero, List.map_nil, List.nil_append, if_true] at hl2
      unfold fileValues
      rw [← hl2]
      simp only
      by_cases hu : s1.uri = []
      · have : ¬ s1.uri.length > 0 := by rw [hu]; simp
        simp [hu]
      · have : s1.uri.length > 0 := List.length_pos.2 hu
        simp [hu, this]
  refine ⟨(fillQueueScan fl info (state.zero : state F)).1.queue, ?_, hmap, ?_, ?_⟩
  · rw [e2]
  · rw [← hmap, List.length_map]
  · intro t ht
    have : t.uri ∈ fileValues info := by
      rw [← hmap]
      exact List.mem_map_of_mem _ ht
    unfold fileValues at this
    have := (List.mem_filter.1 this).2
    simpa using this

/-- The hypothesis of `fillQueueScan_uris` at a listing with a `file` line
without value between two tracks. -/
theorem fillQueueScan_uris_witness :
    fileValues "file: a.mp3\nTitle: X\nfile: \nfile: b.mp3\n".toList =
      ["a.mp3".toList, "b.mp3".toList] ∧
    ∃ added,
      (fillQueueScan unitFloat "file: a.mp3\nTitle: X\nfile: \nfile: b.mp3\n".toList
        state.zero).1.queue = (state.zero : state Unit).queue ++ added ∧
      added.map (fun t => t.uri) =
        fileValues "file: a.mp3\nTitle: X\nfile: \nfile: b.mp3\n".toList ∧
      added.length =
        (fileValues "file: a.mp3\nTitle: X\nfile: \nfile: b.mp3\n".toList).length ∧
      ∀ t ∈ added, t.uri ≠ [] :=
  ⟨by decide,
    (fillQueueScan_uris unitFloat "file: a.mp3\nTitle: X\nfile: \nfile: b.mp3\n".toList
      state.zero (by decide)).1⟩

/-- C20, as stated, fails: on the listing `Title: X\nfile: a.mp3\n` the scan
succeeds and the only track, `a.mp3`, carries the title of the line that
precedes its `file` line. -/
theorem fillQueueScan_fields_leak :
    fillQueueScan unitFloat "Title: X\nfile: a.mp3\n".toList state.zero =
      ({ mpdState := mpdState.playMPDState, elapsed := none, songID := none,
         queue :=
           [{ uri := "a.mp3".toList, songID := 0, duration := (), title := "X".toList,
              artist := [], album := [], track := none }],
         highlighted := 0 }, none) := by
  decide


/-! ## Queue parse: where the accumulator starts afresh -/

theorem getLast?_getD_cons {α : Type} (v : α) (l : List α) (d : α) :
    ((v :: l).getLast?).getD d = (l.getLast?).getD v := by
  cases l with
  | nil => rfl
  | cons a l =>
    rw [List.getLast?_cons_cons]
    cases h : (a :: l).getLast? with
    | none => simp at h
    | some x => rfl

theorem fillQueueLine_uri {F : Type} (fl : Float32Lib F) (line : Str) (s : song F)
    (q : List (song F)) (h : (fillQueueLine fl line s q).2.2 = none) :
    (fillQueueLine fl line s q).1.uri = (fileValue line).getD s.uri := by
  by_cases hk : keyOf line = "file".toList
  · rcases keyOf_file line hk with h1 | ⟨v, rfl, _⟩
    · exfalso
      have : (fillQueueLine fl line s q).2.2 =
          some (Err.text "encountered epmty URI".toList) := by
        unfold fillQueueLine
        rw [h1]
        rfl
      rw [this] at h
      exact absurd h (by simp)
    · rw [fillQueueLine_file, fileValue_file]
      rfl
  · rw [(fillQueueLine_other fl line s q hk).1, fileValue_of_key_ne line hk]
    rfl

theorem fillQueueLoop_uri {F : Type} (fl : Float32Lib F) (lines : List Str) (s : song F)
    (q : List (song F)) (h : (fillQueueLoop fl lines s q).2.2 = none) :
    (fillQueueLoop fl lines s q).1.uri = ((lines.filterMap fileValue).getLast?).getD s.uri := by
  induction lines generalizing s q with
  | nil => rfl
  | cons line rest ih =>
    rw [fillQueueLoop] at h ⊢
    have hline := fillQueueLine_uri fl line s q
    generalize fillQueueLine fl line s q = r at h hline ⊢
    obtain ⟨s1, q1, e⟩ := r
    cases e with
    | some e => simp at h
    | none =>
      simp only at h ⊢
      rw [ih s1 q1 h, hline rfl]
      cases hf : fileValue line with
      | none => simp [List.filterMap_cons, hf]
      | some v =>
        rw [List.filterMap_cons, hf]
        simp only [Option.getD_some]
        rw [getLast?_getD_cons]

theorem fillQueueLoop_split {F : Type} (fl : Float32Lib F) (A B : List Str) (u : Str)
    (s : song F) (q : List (song F))
    (hA : (fillQueueLoop fl A s q).2.2 = none) (hu : (fillQueueLoop fl A s q).1.uri ≠ []) :
    fillQueueLoop fl (A ++ ("file: ".toList ++ u) :: B) s q =
      ((fillQueueLoop fl (("file: ".toList ++ u) :: B) (song.zero fl) []).1,
        ((fillQueueLoop fl A s q).2.1 ++ [(fillQueueLoop fl A s q).1]) ++
          (fillQueueLoop fl (("file: ".toList ++ u) :: B) (song.zero fl) []).2.1,
        (fillQueueLoop fl (("file: ".toList ++ u) :: B) (song.zero fl) []).2.2) := by
  rw [fillQueueLoop_append]
  generalize fillQueueLoop fl A s q = r at hA hu ⊢
  obtain ⟨sA, qA, e⟩ := r
  simp only at hA hu
  subst hA
  simp only
  have hl : sA.uri.length > 0 := List.length_pos.2 hu
  rw [fillQueueLoop, fillQueueLine_file, fillQueueLoop, fillQueueLine_file]
  simp only [if_pos hl]
  have hz : ¬ (song.zero fl).uri.length > 0 := by simp [song.zero]
  simp only [if_neg hz]
  rw [fillQueueLoop_queue fl B _ (qA ++ [sA])]


theorem fillQueueLoop_prefix_ok {F : Type} (fl : Float32Lib F) (l1 l2 : List Str) (s : song F)
    (q : List (song F)) (h : (fillQueueLoop fl (l1 ++ l2) s q).2.2 = none) :
    (fillQueueLoop fl l1 s q).2.2 = none := by
  rw [fillQueueLoop_append] at h
  generalize fillQueueLoop fl l1 s q = r at h ⊢
  obtain ⟨s1, q1, e⟩ := r
  cases e with
  | some e => simp at h
  | none => rfl

theorem fillQueueScan_err_eq {F : Type} (fl : Float32Lib F) (info : Str) (st : state F) :
    (fillQueueScan fl info st).2 =
      (fillQueueLoop fl (strings.Split info '\n') (song.zero fl) st.queue).2.2 := by
  unfold fillQueueScan
  generalize fillQueueLoop fl (strings.Split info '\n') (song.zero fl) st.queue = r
  obtain ⟨s1, q1, e⟩ := r
  cases e <;> rfl

/-- C20, as amended: on a listing whose parse succeeds, at a `file` line
whose preceding `file` line has a non-empty value the parse splits: the
queue is the queue the scan returns for the lines before that `file` line,
followed by the queue the scan returns, from a fresh state, for the listing
from that `file` line on; both parts parse without error. -/
theorem fillQueueScan_splits_at_file {F : Type} (fl : Float32Lib F) (A : List Str)
    (u b v : Str) (st : state F)
    (hA : ∀ l ∈ A, '\n' ∉ l) (hu : '\n' ∉ u)
    (hprev : (A.filterMap fileValue).getLast? = some v) (hv : v ≠ [])
    (hok : (fillQueueScan fl
      ((A.map (· ++ "\n".toList)).flatten ++ ("file: ".toList ++ u ++ '\n' :: b)) st).2 = none) :
    (fillQueueScan fl
        ((A.map (· ++ "\n".toList)).flatten ++ ("file: ".toList ++ u ++ '\n' :: b)) st).1.queue =
      (fillQueueScan fl ((A.map (· ++ "\n".toList)).flatten) st).1.queue ++
        (fillQueueScan fl ("file: ".toList ++ u ++ '\n' :: b) state.zero).1.queue ∧
    (fillQueueScan fl ((A.map (· ++ "\n".toList)).flatten) st).2 = none ∧
    (fillQueueScan fl ("file: ".toList ++ u ++ '\n' :: b) state.zero).2 = none := by
  have hF : '\n' ∉ "file: ".toList ++ u := by
    intro hm
    rcases List.mem_append.1 hm with hm | hm
    · revert hm; decide
    · exact hu hm
  have s1 : strings.Split
      ((A.map (· ++ "\n".toList)).flatten ++ ("file: ".toList ++ u ++ '\n' :: b)) '\n' =
      A ++ ("file: ".toList ++ u) :: strings.Split b '\n' := by
    rw [Split_lines A _ hA, Split_line _ _ hF]
  have s2 : strings.Split ((A.map (· ++ "\n".toList)).flatten) '\n' = A ++ [[]] := by
    have := Split_lines A [] hA
    rw [List.append_nil] at this
    exact this
  have s3 : strings.Split ("file: ".toList ++ u ++ '\n' :: b) '\n' =
      ("file: ".toList ++ u) :: strings.Split b '\n' := Split_line _ _ hF
  rw [fillQueueScan_err_eq, s1] at hok
  have hAok := fillQueueLoop_prefix_ok fl A _ (song.zero fl) st.queue hok
  have huri : (fillQueueLoop fl A (song.zero fl) st.queue).1.uri ≠ [] := by
    rw [fillQueueLoop_uri fl A _ _ hAok, hprev]
    exact hv
  unfold fillQueueScan
  rw [s1, s2, s3]
  rw [fillQueueLoop_split fl A _ u _ _ hAok huri] at hok ⊢
  rw [fillQueueLoop_append]
  have hz : (state.zero : state F).queue = [] := rfl
  rw [hz]
  generalize fillQueueLoop fl (("file: ".toList ++ u) :: strings.Split b '\n')
    (song.zero fl) [] = R at hok ⊢
  generalize fillQueueLoop fl A (song.zero fl) st.queue = L at hAok huri hok ⊢
  obtain ⟨sA, qA, eA⟩ := L
  obtain ⟨sR, qR, eR⟩ := R
  simp only at hAok huri
  subst hAok
  cases eR with
  | some e => simp at hok
  | none =>
    have hl : sA.uri.length > 0 := List.length_pos.2 huri
    simp only [fillQueueLoop, fillQueueLine_empty, if_pos hl]
    refine ⟨?_, trivial, trivial⟩
    by_cases hr : sR.uri.length > 0
    · simp only [if_pos hr, List.append_assoc]
    · simp only [if_neg hr]

/-- The hypotheses of `fillQueueScan_splits_at_file` at the listing
`file: a.mp3\nTitle: X\nfile: b.mp3\nTitle: Y\n`, split at its second `file`
line. -/
theorem fillQueueScan_splits_at_file_witness :
    (fillQueueScan unitFloat "file: a.mp3\nTitle: X\nfile: b.mp3\nTitle: Y\n".toList
        state.zero).1.queue =
      (fillQueueScan unitFloat "file: a.mp3\nTitle: X\n".toList state.zero).1.queue ++
        (fillQueueScan unitFloat "file: b.mp3\nTitle: Y\n".toList state.zero).1.queue :=
  (fillQueueScan_splits_at_file unitFloat ["file: a.mp3".toList, "Title: X".toList]
    "b.mp3".toList "Title: Y\n".toList "a.mp3".toList state.zero
    (by decide) (by decide) (by decide) (by decide) (by decide)).1

end Mpq
